import Mathlib

/-!
Verification development for the obj2svg repository (geo.py, svg2obj.py,
svg2gcode.py).  The Python sources are shallowly embedded below: pure
string processing is modelled on `List Char`, Python floats are idealised
as real numbers (numeric literals enter as exact decimal values, see
`PyNum`), fallible list indexing is modelled in the `Except PyErr` monad,
and each embedded definition mirrors the corresponding Python function
line by line.
-/

/-- Runtime errors of the embedded Python fragments: `IndexError` from list
indexing and `ValueError` from an uncaught `float(...)` conversion. -/
inductive PyErr : Type
  | indexError : PyErr
  | valueError : PyErr
  deriving DecidableEq, Repr

/-- Python `l[n]` on a list: the value, or `IndexError` when out of range
(negative indices do not occur in the embedded code paths). -/
def listGet {α : Type} (l : List α) (n : ℕ) : Except PyErr α :=
  match l.get? n with
  | some a => .ok a
  | none => .error .indexError

/-- Python `l.insert(n, a)`: insert at position `n`, clamping to the end
when `n` exceeds the length (exactly `take`/`drop` behaviour). -/
def pyInsert {α : Type} (n : ℕ) (a : α) (l : List α) : List α :=
  l.take n ++ a :: l.drop n

/-- The ASCII whitespace characters matched by Python's `\s` and stripped
by `str.strip()`/`str.split()`.  (Unicode whitespace is not modelled; the
embedded paths and transform expressions are ASCII.) -/
def isPySpace (c : Char) : Bool :=
  c = ' ' || c = '\t' || c = '\n' || c = '\r' || c = '\x0b' || c = '\x0c'

/-- One pass of `re.sub(r"[\s]+", " ", text)`: every maximal run of
whitespace becomes a single space. -/
def collapseWs : List Char → List Char
  | [] => []
  | [c] => if isPySpace c then [' '] else [c]
  | c0 :: c1 :: t =>
    if isPySpace c0 && isPySpace c1 then collapseWs (c1 :: t)
    else (if isPySpace c0 then ' ' else c0) :: collapseWs (c1 :: t)

/-- Python `str.strip()` (ASCII whitespace). -/
def pyStrip (cs : List Char) : List Char :=
  ((cs.dropWhile isPySpace).reverse.dropWhile isPySpace).reverse

/-- `clean_whitespace` from common.py / svg2obj.py:
`re.sub(r"[\s]+", " ", text).strip()`. -/
def cleanWhitespace (cs : List Char) : List Char :=
  pyStrip (collapseWs cs)

/-- Python `str.split()` with no argument: split on whitespace runs,
discarding empty pieces. -/
def pySplitAux (acc : List Char) : List Char → List (List Char)
  | [] => if acc.isEmpty then [] else [acc.reverse]
  | c :: t =>
    if isPySpace c then
      if acc.isEmpty then pySplitAux [] t else acc.reverse :: pySplitAux [] t
    else pySplitAux (c :: acc) t

/-- Python `str.split()` with no argument. -/
def pySplit (cs : List Char) : List (List Char) :=
  pySplitAux [] cs

/-- Numeric value of a run of decimal digit characters. -/
def natOfDigits (ds : List Char) : ℕ :=
  ds.foldl (fun a c => 10 * a + (c.toNat - '0'.toNat)) 0

/-- An exact decimal value `mant · 10 ^ e10`, the result of a successful
Python `float(...)` conversion (floats are idealised as exact reals). -/
structure PyNum : Type where
  mant : ℤ
  e10 : ℤ
  deriving DecidableEq, Repr

/-- The real value of a parsed decimal literal. -/
noncomputable def PyNum.toR (p : PyNum) : ℝ :=
  (p.mant : ℝ) * 10 ^ p.e10

/-- Python `float(s)` on the numeric-literal forms that occur in SVG path
and transform data: optional sign, digits with an optional decimal point,
optional `e`/`E` exponent with optional sign.  The result is the exact
decimal value.  Special inputs accepted by CPython (`inf`, `nan`,
underscores, surrounding whitespace) are not modelled and count as parse
failures; none of them occur in the embedded code paths. -/
def pyFloat (cs : List Char) : Option PyNum :=
  let (sgn, cs1) : ℤ × List Char :=
    match cs with
    | '+' :: t => (1, t)
    | '-' :: t => (-1, t)
    | _ => (1, cs)
  let ip := cs1.takeWhile Char.isDigit
  let cs2 := cs1.drop ip.length
  let (fp, cs3) : Option (List Char) × List Char :=
    match cs2 with
    | '.' :: t => (some (t.takeWhile Char.isDigit), t.drop (t.takeWhile Char.isDigit).length)
    | _ => (none, cs2)
  let fracDigits := fp.getD []
  if ip.isEmpty && fracDigits.isEmpty then none
  else
    let mant : ℤ := sgn * ((natOfDigits ip : ℤ) * 10 ^ fracDigits.length + (natOfDigits fracDigits : ℤ))
    let flen : ℤ := (fracDigits.length : ℤ)
    match cs3 with
    | [] => some ⟨mant, -flen⟩
    | 'e' :: t | 'E' :: t =>
      let (esgn, t1) : ℤ × List Char :=
        match t with
        | '+' :: u => (1, u)
        | '-' :: u => (-1, u)
        | _ => (1, t)
      let ed := t1.takeWhile Char.isDigit
      if ed.isEmpty || !(t1.drop ed.length).isEmpty then none
      else some ⟨mant, esgn * (natOfDigits ed : ℤ) - flen⟩
    | _ => none

/-- `math.atan2 y x`, idealised over the reals via the complex argument
(range `(-π, π]`, `atan2 0 0 = 0`, matching CPython on exact inputs up to
the floating `-0.0` artefact, which has no real counterpart). -/
noncomputable def atan2 (y x : ℝ) : ℝ :=
  Complex.arg ⟨x, y⟩

/-- Python `int(x)` on a float: truncation toward zero. -/
noncomputable def pyTrunc (x : ℝ) : ℤ :=
  if 0 ≤ x then ⌊x⌋ else ⌈x⌉

/-- The local `point` helper of `poly_points_bezier`: the cubic Bernstein
polynomial of one coordinate. -/
def bpoint (p0 p1 p2 p3 t : ℝ) : ℝ :=
  p0 * (1 - t) ^ 3 + p1 * 3 * (1 - t) ^ 2 * t + p2 * 3 * (1 - t) * t ^ 2 + p3 * t ^ 3

/-- The local `ang_diff` helper of `poly_points_bezier`: shift the angle
difference `a2 - a1` by `±2π` when it leaves `[-π, π]` (two sequential
`if`s, exactly as in the source). -/
noncomputable def angDiff (a1 a2 : ℝ) : ℝ :=
  let diff := a2 - a1
  let diff := if diff > Real.pi then diff - 2 * Real.pi else diff
  if diff < -Real.pi then diff + 2 * Real.pi else diff

/-- The `while segment:` loop at the top of `poly_points_bezier`: cut the
value list into pairs `segment[:2]`; a trailing odd value yields a
one-element vertex, exactly as `tuple(segment[:2])` does. -/
def bezChunks : List ℝ → List (List ℝ)
  | [] => []
  | [x] => [[x]]
  | x :: y :: t => [x, y] :: bezChunks t

/-- `poly_points_bezier` from geo.py (svg2obj.py contains a textually
identical copy).  Vertices are Python lists/tuples of floats, modelled as
`List ℝ`; every list subscript is the fallible `listGet`. -/
noncomputable def polyPointsBezier (cursor : List ℝ) (segment : List ℝ)
    (absolute : Bool) : Except PyErr (List (List ℝ)) := do
  let vl ← (bezChunks segment).foldlM
    (fun acc v => do
      if absolute then
        pure (acc ++ [v])
      else do
        let c0 ← listGet cursor 0
        let c1 ← listGet cursor 1
        let v0 ← listGet v 0
        let v1 ← listGet v 1
        pure (acc ++ [[c0 + v0, c1 + v1]]))
    [cursor]
  let p0 ← listGet vl 0
  let p1 ← listGet vl 1
  let p2 ← listGet vl 2
  let p3 ← listGet vl 3
  let p0x ← listGet p0 0
  let p0y ← listGet p0 1
  let p1x ← listGet p1 0
  let p1y ← listGet p1 1
  let p2x ← listGet p2 0
  let p2y ← listGet p2 1
  let p3x ← listGet p3 0
  let p3y ← listGet p3 1
  let a1 := atan2 (p1y - p0y) (p1x - p0x)
  let a2 := atan2 (p2y - p1y) (p2x - p1x)
  let a3 := atan2 (p3y - p2y) (p3x - p2x)
  let d1 := angDiff a1 a2
  let d2 := angDiff a2 a3
  let dx := p3x - p0x
  let dy := p3y - p0y
  let len := Real.sqrt (dx * dx + dy * dy)
  let d := |d1| + |d2|
  let n : ℤ := 1 + pyTrunc (10 * d) + pyTrunc (len / 100)
  pure ((List.range n.toNat).map (fun (i : ℕ) =>
    let t : ℝ := ((i : ℝ) + 1) / (n : ℝ)
    [bpoint p0x p1x p2x p3x t, bpoint p0y p1y p2y p3y t]))

/-- `poly_points_linear` from geo.py (identical copy in svg2obj.py): `H`
inserts the fixed `y` into the segment, `V` the fixed `x`; absolute
segments are returned as given, relative ones are added to the cursor. -/
def polyPointsLinear (cmd : Char) (cursor : List ℝ) (segment : List ℝ)
    (absolute : Bool) : Except PyErr (List (List ℝ)) := do
  let seg ←
    if cmd.toUpper = 'H' then do
      let y ← if absolute then listGet cursor 1 else pure (0 : ℝ)
      pure (pyInsert 1 y segment)
    else pure segment
  let seg ←
    if cmd.toUpper = 'V' then do
      let x ← if absolute then listGet cursor 0 else pure (0 : ℝ)
      pure (pyInsert 0 x seg)
    else pure seg
  if absolute then
    pure [seg]
  else do
    let c0 ← listGet cursor 0
    let c1 ← listGet cursor 1
    let s0 ← listGet seg 0
    let s1 ← listGet seg 1
    pure [[c0 + s0, c1 + s1]]

/-- The command-letter class `[mlhvzcsqta]` with `re.I`. -/
def isCmdChar (c : Char) : Bool :=
  c.toLower = 'm' || c.toLower = 'l' || c.toLower = 'h' || c.toLower = 'v' ||
  c.toLower = 'z' || c.toLower = 'c' || c.toLower = 's' || c.toLower = 'q' ||
  c.toLower = 't' || c.toLower = 'a'

/-- The class `[0-9-]`. -/
def isDigitDash (c : Char) : Bool :=
  c.isDigit || c = '-'

/-- `re.compile(" ([mlhvzcsqta])([0-9-])", re.I).sub(r"\1 \2", path)`:
left-to-right non-overlapping replacement; note that the replacement drops
the leading space of the match, exactly as the source's `r"\1 \2"` does. -/
def subCmdDigit : List Char → List Char
  | c0 :: c1 :: c2 :: t =>
    if c0 = ' ' && isCmdChar c1 && isDigitDash c2 then
      c1 :: ' ' :: c2 :: subCmdDigit t
    else c0 :: subCmdDigit (c1 :: c2 :: t)
  | other => other

/-- Tail worker for the split on `" ([mlhvzcsqta])"` (`re.I`): `cur` is the
last command letter matched, `acc` the (reversed) text accumulated since
it; a new match `" X"` closes the current piece and opens a new one. -/
def splitCmdsAux (cur : Char) (acc : List Char) : List Char → List (Char × List Char)
  | [] => [(cur, acc.reverse)]
  | [c] => [(cur, (c :: acc).reverse)]
  | c0 :: c1 :: t =>
    if c0 = ' ' && isCmdChar c1 then (cur, acc.reverse) :: splitCmdsAux c1 [] t
    else splitCmdsAux cur (c0 :: acc) (c1 :: t)

/-- `re.compile(" ([mlhvzcsqta])", re.I).split(path)[1:]` paired up as the
interpreter loop consumes it: the text before the first command match is
dropped (that is the `[1:]`), and each command letter is paired with the
text that follows it. -/
def splitCmds : List Char → List (Char × List Char)
  | [] => []
  | [_] => []
  | c0 :: c1 :: t =>
    if c0 = ' ' && isCmdChar c1 then splitCmdsAux c1 [] t
    else splitCmds (c1 :: t)

/-- One entry of the `handlers` dict of `path_to_poly_list`, keyed by the
uppercase command letter.  `pathFn` is the `"path"` entry (`none` for `Z`,
which has no `"path"` key); `draw := false` models `"draw": False` (only
`M`); every handler lacking the key defaults to `True`.  (No handler
defines a `"value"` entry, so that hook is dead code and not modelled.) -/
inductive PathFn : Type
  | linear : PathFn
  | bezier : PathFn
  deriving DecidableEq, Repr

structure Handler : Type where
  len : ℕ
  draw : Bool
  pathFn : Option PathFn
  deriving DecidableEq, Repr

/-- `handlers[command.upper()]`, `None` standing for a `KeyError`. -/
def handlerFor (c : Char) : Option Handler :=
  if c = 'M' then some ⟨2, false, some .linear⟩
  else if c = 'L' then some ⟨2, true, some .linear⟩
  else if c = 'H' then some ⟨1, true, some .linear⟩
  else if c = 'V' then some ⟨1, true, some .linear⟩
  else if c = 'Z' then some ⟨0, true, none⟩
  else if c = 'C' then some ⟨6, true, some .bezier⟩
  else none

/-- `values = clean_whitespace(text).split()` followed by
`[float(v) for v in values]`; `none` models the caught `ValueError`. -/
def parseVals (txt : List Char) : Option (List PyNum) :=
  (pySplit (cleanWhitespace txt)).mapM pyFloat

/-- Interpreter state of `path_to_poly_list`: the source's `poly_list` is
`done ++ [cur]` (so `poly_list[-1]` is `cur`), and `cursor` is the mutable
cursor list. -/
structure PState : Type where
  done : List (List (List ℝ))
  cur : List (List ℝ)
  cursor : List ℝ

/-- Evaluate a handler's `"path"` entry. -/
noncomputable def evalPathFn (pf : PathFn) (cmd : Char) (cursor : List ℝ)
    (segment : List ℝ) (absolute : Bool) : Except PyErr (List (List ℝ)) :=
  match pf with
  | .linear => polyPointsLinear cmd cursor segment absolute
  | .bezier => polyPointsBezier cursor segment absolute

/-- The `while values:` loop of `path_to_poly_list`: cut `length` values
off, run the `"path"` function (breaking out first when the handler has
none, as `Z` does), then advance the cursor to and append each returned
vertex.  The fuel argument is the initial number of values; every handler
with a `"path"` entry has positive arity, so the loop consumes at least
one value per iteration and the fuel never runs out. -/
noncomputable def runSegments (h : Handler) (cmd : Char) (absolute : Bool) :
    ℕ → List ℝ → PState → Except PyErr PState
  | _, [], st => .ok st
  | 0, _, st => .ok st
  | fuel + 1, vals, st =>
    let segment := vals.take h.len
    let rest := vals.drop h.len
    match h.pathFn with
    | none => .ok st
    | some pf => do
      let vlist ← evalPathFn pf cmd st.cursor segment absolute
      let st := vlist.foldl (fun s v => ⟨s.done, s.cur ++ [v], v⟩) st
      runSegments h cmd absolute fuel rest st

/-- The command loop of `path_to_poly_list`.  A missing handler
(`KeyError`) or an unparsable value group (`ValueError`) executes `break`:
the state reached so far is returned.  `M` (`"draw": False`) opens a new
subpath when the current one is non-empty; `Z` appends the current
subpath's first point, raising `IndexError` when there is none. -/
noncomputable def processCmds : List (Char × List Char) → PState → Except PyErr PState
  | [], st => .ok st
  | (cmd, txt) :: rest, st =>
    match handlerFor cmd.toUpper with
    | none => .ok st
    | some h =>
      match parseVals txt with
      | none => .ok st
      | some pvals =>
        let vals := pvals.map PyNum.toR
        let st1 : PState :=
          if h.draw = false && !st.cur.isEmpty then ⟨st.done ++ [st.cur], [], st.cursor⟩
          else st
        do
          let st2 ← runSegments h cmd (cmd = cmd.toUpper) vals.length vals st1
          let st3 ←
            if cmd.toUpper = 'Z' then do
              let first ← listGet st2.cur 0
              pure (⟨st2.done, st2.cur ++ [first], st2.cursor⟩ : PState)
            else pure st2
          processCmds rest st3

/-- The final comprehension `[(v[0], v[1]) for v in poly]`, with its
fallible subscripts. -/
def finalizePoly (poly : List (List ℝ)) : Except PyErr (List (ℝ × ℝ)) :=
  poly.mapM (fun v => do
    let x ← listGet v 0
    let y ← listGet v 1
    pure (x, y))

/-- The shared preprocessing of `path_to_poly_list` (geo.py) and
`path_to_poly` (svg2obj.py): prepend a space, run the command-digit
substitution, replace commas by spaces, and split on command letters. -/
def tokenizePath (path : String) : List (Char × List Char) :=
  splitCmds ((subCmdDigit (' ' :: cleanWhitespace path.toList)).map
    (fun c => if c = ',' then ' ' else c))

/-- `path_to_poly_list` from geo.py: preprocess, interpret the command
list starting from `poly_list = [[]]`, `cursor = [0, 0]`, and convert
every vertex to a pair. -/
noncomputable def pathToPolyList (path : String) : Except PyErr (List (List (ℝ × ℝ))) := do
  let st ← processCmds (tokenizePath path) ⟨[], [], [0, 0]⟩
  (st.done ++ [st.cur]).mapM finalizePoly

/-- Interpreter state of svg2obj.py's `path_to_poly`: a single `poly`
accumulator and the cursor. -/
structure OState : Type where
  poly : List (List ℝ)
  cursor : List ℝ

/-- The `while values:` loop of svg2obj.py's `path_to_poly`: identical to
the geo.py loop except that a vertex is appended to `poly` only when the
handler draws (`if handler.get("draw", True): poly.append(cursor)`). -/
noncomputable def runSegmentsObj (h : Handler) (cmd : Char) (absolute : Bool) :
    ℕ → List ℝ → OState → Except PyErr OState
  | _, [], st => .ok st
  | 0, _, st => .ok st
  | fuel + 1, vals, st =>
    let segment := vals.take h.len
    let rest := vals.drop h.len
    match h.pathFn with
    | none => .ok st
    | some pf => do
      let vlist ← evalPathFn pf cmd st.cursor segment absolute
      let st := vlist.foldl
        (fun (s : OState) v => ⟨if h.draw then s.poly ++ [v] else s.poly, v⟩) st
      runSegmentsObj h cmd absolute fuel rest st

/-- The command loop of svg2obj.py's `path_to_poly`.  Before the value
loop, the first drawing command seeds `poly` with the current cursor
(`if handler.get("draw", True) and not poly: poly.append(cursor)`); there
is no `Z` closing block in this variant. -/
noncomputable def processCmdsObj : List (Char × List Char) → OState → Except PyErr OState
  | [], st => .ok st
  | (cmd, txt) :: rest, st =>
    match handlerFor cmd.toUpper with
    | none => .ok st
    | some h =>
      match parseVals txt with
      | none => .ok st
      | some pvals =>
        let vals := pvals.map PyNum.toR
        let st1 : OState :=
          if h.draw && st.poly.isEmpty then ⟨[st.cursor], st.cursor⟩ else st
        do
          let st2 ← runSegmentsObj h cmd (cmd = cmd.toUpper) vals.length vals st1
          processCmdsObj rest st2

/-- `path_to_poly` from svg2obj.py: the same preprocessing and command
split as geo.py, a single polygon accumulator, and a final Y inversion
`[(v[0], -v[1]) for v in poly]`. -/
noncomputable def pathToPolyObj (path : String) : Except PyErr (List (ℝ × ℝ)) := do
  let st ← processCmdsObj (tokenizePath path) ⟨[], [0, 0]⟩
  st.poly.mapM (fun v => do
    let x ← listGet v 0
    let y ← listGet v 1
    pure (x, -y))

/-- The character class `[0-9.e-]` used by every argument group of the
transform regexes in geo.py (lower-case `e` only: the patterns are
compiled with `re.X` but not `re.I`). -/
def isTfChar (c : Char) : Bool :=
  c.isDigit || c = '.' || c = 'e' || c = '-'

/-- Consume an exact literal from the front of the input (the fixed part
of a transform regex, e.g. `rotate(`). -/
def dropLit : List Char → List Char → Option (List Char)
  | [], cs => some cs
  | _ :: _, [] => none
  | p :: ps, c :: cs => if c = p then dropLit ps cs else none

/-- One regex group `([0-9.e-]+)`: a maximal non-empty run of class
characters.  Because the delimiters `,` and `)` that follow a group in
every pattern are outside the class, the greedy maximal match is the only
possible one, so this is exactly the regex semantics. -/
def grabGroup (cs : List Char) : Option (List Char × List Char) :=
  let g := cs.takeWhile isTfChar
  if g.isEmpty then none else some (g, cs.drop g.length)

/-- `k ≥ 1` comma-separated groups followed by `)`.  `re.match` only
anchors at the start, so anything after the `)` is ignored. -/
def parseGroups : ℕ → List Char → Option (List (List Char))
  | 0, _ => none
  | 1, cs => do
    let (g, rest) ← grabGroup cs
    match rest with
    | ')' :: _ => some [g]
    | _ => none
  | k + 2, cs => do
    let (g, rest) ← grabGroup cs
    match rest with
    | ',' :: rest1 => do
      let gs ← parseGroups (k + 1) rest1
      some (g :: gs)
    | _ => none

/-- Try one transform pattern: the literal function name, `(`, `k` groups,
`)`. -/
def tryForm (name : List Char) (k : ℕ) (cs : List Char) : Option (List (List Char)) := do
  let rest ← dropLit (name ++ ['(']) cs
  parseGroups k rest

/-- `[float(v) for v in match.groups()]` in `parse_transform`: this
conversion is not guarded by a `try`, so a group matching `[0-9.e-]+`
that is not a valid float literal raises `ValueError`. -/
def floatsOf (gs : List (List Char)) : Except PyErr (List PyNum) :=
  match gs.mapM pyFloat with
  | some ps => .ok ps
  | none => .error .valueError

/-- `math.radians`. -/
noncomputable def radians (deg : ℝ) : ℝ :=
  deg * Real.pi / 180

/-- The 3×3 matrices built by `parse_transform` (np.matrix literals). -/
noncomputable def matrixForm (a b c d e f : ℝ) : Matrix (Fin 3) (Fin 3) ℝ :=
  !![a, c, e; b, d, f; 0, 0, 1]

noncomputable def translateForm (tx ty : ℝ) : Matrix (Fin 3) (Fin 3) ℝ :=
  !![1, 0, tx; 0, 1, ty; 0, 0, 1]

noncomputable def rotateForm (θ : ℝ) : Matrix (Fin 3) (Fin 3) ℝ :=
  !![Real.cos θ, Real.sin θ, 0; -Real.sin θ, Real.cos θ, 0; 0, 0, 1]

noncomputable def scaleForm (sx sy : ℝ) : Matrix (Fin 3) (Fin 3) ℝ :=
  !![sx, 0, 0; 0, sy, 0; 0, 0, 1]

/-- `parse_transform` from geo.py: clean the whitespace, then try the
anchored patterns in source order — `matrix(6)`, `translate(2)`,
`translate(1)`, `rotate(1)`, `rotate(3)`, `scale(2)`, `scale(1)` — and
build the corresponding matrix from the first match; with no match the
function logs a warning and returns `None`. -/
noncomputable def parseTransform (text : String) :
    Except PyErr (Option (Matrix (Fin 3) (Fin 3) ℝ)) :=
  let cs := cleanWhitespace text.toList
  match tryForm "matrix".toList 6 cs with
  | some gs => do
    let ps ← floatsOf gs
    match ps with
    | [a, b, c, d, e, f] =>
      pure (some (matrixForm a.toR b.toR c.toR d.toR e.toR f.toR))
    | _ => .error .indexError
  | none =>
  match tryForm "translate".toList 2 cs with
  | some gs => do
    let ps ← floatsOf gs
    match ps with
    | [tx, ty] => pure (some (translateForm tx.toR ty.toR))
    | _ => .error .indexError
  | none =>
  match tryForm "translate".toList 1 cs with
  | some gs => do
    let ps ← floatsOf gs
    match ps with
    | [tx] => pure (some (translateForm tx.toR 0))
    | _ => .error .indexError
  | none =>
  match tryForm "rotate".toList 1 cs with
  | some gs => do
    let ps ← floatsOf gs
    match ps with
    | [a] => pure (some (rotateForm (radians a.toR)))
    | _ => .error .indexError
  | none =>
  match tryForm "rotate".toList 3 cs with
  | some gs => do
    let ps ← floatsOf gs
    match ps with
    | [a, cx, cy] =>
      pure (some (translateForm cx.toR cy.toR * rotateForm (radians a.toR) *
        translateForm (-cx.toR) (-cy.toR)))
    | _ => .error .indexError
  | none =>
  match tryForm "scale".toList 2 cs with
  | some gs => do
    let ps ← floatsOf gs
    match ps with
    | [sx, sy] => pure (some (scaleForm sx.toR sy.toR))
    | _ => .error .indexError
  | none =>
  match tryForm "scale".toList 1 cs with
  | some gs => do
    let ps ← floatsOf gs
    match ps with
    | [s] => pure (some (scaleForm s.toR s.toR))
    | _ => .error .indexError
  | none => pure none

/-- `dist2d` from svg2gcode.py. -/
noncomputable def dist2d (a b : ℝ × ℝ) : ℝ :=
  Real.sqrt ((b.1 - a.1) ^ 2 + (b.2 - a.2) ^ 2)

/-- One registration in the endpoint index of `order_paths`:
`{"i": i, "reverse": reverse}`. -/
structure IxEntry : Type where
  i : ℕ
  rev : Bool
  deriving DecidableEq, Repr

/-- The `index` dict of `order_paths`: an insertion-ordered association
list from endpoint coordinates to their registrations, exactly the
iteration behaviour of a Python (default)dict; float keys compare by
numeric equality, idealised as equality in `ℝ × ℝ`. -/
abbrev Index : Type :=
  List ((ℝ × ℝ) × List IxEntry)

open scoped Classical in
/-- Dict read: the entry list at a key (keys are unique by
construction). -/
noncomputable def ixFind : Index → (ℝ × ℝ) → Option (List IxEntry)
  | [], _ => none
  | (k', l) :: ix, k => if k' = k then some l else ixFind ix k

open scoped Classical in
/-- Dict update at an existing key (a Python dict keeps the key's
position). -/
noncomputable def ixSet : Index → (ℝ × ℝ) → List IxEntry → Index
  | [], _, _ => []
  | (k', l') :: ix, k, l => (if k' = k then (k', l) else (k', l')) :: ixSet ix k l

open scoped Classical in
/-- `del index[k]`. -/
noncomputable def ixDel : Index → (ℝ × ℝ) → Index
  | [], _ => []
  | (k', l') :: ix, k => if k' = k then ixDel ix k else (k', l') :: ixDel ix k

/-- `index[k].append(e)` on a defaultdict: append to the existing list, or
register a new key at the end of the iteration order. -/
noncomputable def ixAppend (ix : Index) (k : ℝ × ℝ) (e : IxEntry) : Index :=
  match ixFind ix k with
  | some l => ixSet ix k (l ++ [e])
  | none => ix ++ [(k, [e])]

/-- The registration loop of `order_paths`: for each non-empty path,
register its first point with `reverse = False` and its last point with
`reverse = True`. -/
noncomputable def buildIndex (pathList : List (List (ℝ × ℝ))) : Index :=
  pathList.enum.foldl
    (fun ix ip =>
      match ip.2 with
      | [] => ix
      | p :: ps =>
        let lastPt := (p :: ps).getLast (List.cons_ne_nil p ps)
        ixAppend (ixAppend ix p ⟨ip.1, false⟩) lastPt ⟨ip.1, true⟩)
    []

/-- One iteration of the scan `for point in index.keys()` in the
`while index:` loop of `order_paths`: replace the running
`(lo_point, lo_dist)` pair when `lo_dist is None or dist < lo_dist`. -/
noncomputable def scanStep (cursor : ℝ × ℝ) (lo : Option (ℝ × ℝ) × Option ℝ)
    (k : ℝ × ℝ) : Option (ℝ × ℝ) × Option ℝ :=
  let dist := dist2d cursor k
  match lo.2 with
  | none => (some k, some dist)
  | some ld => if dist < ld then (some k, some dist) else lo

/-- The full scan over the keys, in dict iteration order. -/
noncomputable def scanLo (cursor : ℝ × ℝ) (keys : List (ℝ × ℝ)) :
    Option (ℝ × ℝ) × Option ℝ :=
  keys.foldl (scanStep cursor) (none, none)

/-- `add_item(start)` from `order_paths`: pop the first registration at the
matched key (an `IndexError` if there is none), delete the key when its
list empties, reverse the path when the registration says so, filter the
polygon's other registration out of the list at the path's new terminal
vertex (when that key is absent, the defaultdict's create-then-delete is a
no-op, which the empty-filter branch reproduces), and return the updated
index, the emitted path and the new cursor `path[-1]`. -/
noncomputable def addItem (pathList : List (List (ℝ × ℝ))) (ix : Index)
    (k : ℝ × ℝ) : Except PyErr (Index × List (ℝ × ℝ) × (ℝ × ℝ)) := do
  let l := (ixFind ix k).getD []
  let item ←
    match l with
    | [] => .error .indexError
    | e :: _ => .ok e
  let rest := l.tail
  let ix1 := if rest.isEmpty then ixDel ix k else ixSet ix k rest
  let path0 := pathList.getD item.i []
  let path := if item.rev then path0.reverse else path0
  let endPt ←
    match path.getLast? with
    | some e => .ok e
    | none => .error .indexError
  let l2 := (ixFind ix1 endPt).getD []
  let l2f := l2.filter (fun v => v.i ≠ item.i)
  let ix2 := if l2f.isEmpty then ixDel ix1 endPt else ixSet ix1 endPt l2f
  pure (ix2, path, endPt)

/-- Total number of registrations in the index; each successful
`add_item` removes at least the popped one, so this bounds the number of
iterations of the `while index:` loop. -/
def countIx (ix : Index) : ℕ :=
  (ix.map (fun p => p.2.length)).sum

/-- The `while index:` loop of `order_paths`, with the registration count
as fuel (the fuel-exhausted and no-`lo_point` branches are unreachable:
a non-empty dict always yields a `lo_point`, and every iteration removes
at least one registration). -/
noncomputable def orderLoop (pathList : List (List (ℝ × ℝ))) :
    ℕ → Index → (ℝ × ℝ) → List (List (ℝ × ℝ)) →
    Except PyErr (List (List (ℝ × ℝ)) × (ℝ × ℝ))
  | 0, _, cursor, out => .ok (out, cursor)
  | fuel + 1, ix, cursor, out =>
    if ix.isEmpty then .ok (out, cursor)
    else
      match (scanLo cursor (ix.map Prod.fst)).1 with
      | none => .ok (out, cursor)
      | some k => do
        let (ix1, path, endPt) ← addItem pathList ix k
        orderLoop pathList fuel ix1 endPt (out ++ [path])

/-- `order_paths` from svg2gcode.py, returning both the emitted order and
the final cursor position (the source keeps the cursor in a closed-over
local and returns only `out_list`). -/
noncomputable def orderPaths (pathList : List (List (ℝ × ℝ))) :
    Except PyErr (List (List (ℝ × ℝ)) × (ℝ × ℝ)) :=
  let ix := buildIndex pathList
  orderLoop pathList (countIx ix) ix (0, 0) []

set_option maxRecDepth 10000

/-- Claim C9 (code-bug evidence): contrary to the claim that
`path_to_poly_list` returns normally on every input, the input `"Z"` —
a ClosePath with no preceding drawing — reaches
`poly_list[-1].append(poly_list[-1][0])` with an empty current subpath and
raises an unhandled `IndexError`. -/
theorem claim9_bare_close_raises : pathToPolyList "Z" = .error .indexError := by
  rfl

/-- Claim C5 (code-bug evidence): on the spec's test string
`"M0,0 L10,0 L10,10 Z"` the tokenizer's substitution
`" ([mlhvzcsqta])([0-9-])" ↦ "\1 \2"` consumes the space before each
command letter, so the later split on `" ([mlhvzcsqta])"` finds only
`" Z"`, drops everything before it as the `[1:]` head, and the bare `Z`
then raises `IndexError` on the empty subpath — instead of returning the
claimed `[[(0,0),(10,0),(10,10),(0,0)]]`.  With spaces after the command
letters the same string produces exactly the polygon the claim expects,
which is the evident intent. -/
theorem claim5_closepath_example :
    pathToPolyList "M0,0 L10,0 L10,10 Z" = .error .indexError ∧
    pathToPolyList "M 0,0 L 10,0 L 10,10 Z" =
      .ok [[((0 : ℝ), 0), (10, 0), (10, 10), (0, 0)]] := by
  constructor
  · rfl
  · have h : pathToPolyList "M 0,0 L 10,0 L 10,10 Z" =
        .ok [[(PyNum.toR ⟨0, 0⟩, PyNum.toR ⟨0, 0⟩), (PyNum.toR ⟨10, 0⟩, PyNum.toR ⟨0, 0⟩),
              (PyNum.toR ⟨10, 0⟩, PyNum.toR ⟨10, 0⟩), (PyNum.toR ⟨0, 0⟩, PyNum.toR ⟨0, 0⟩)]] := by
      rfl
    rw [h]
    norm_num [PyNum.toR]

/-- Claim C7 (counterexample): `path_to_poly_list` starts from
`poly_list = [[]]` and an input with no drawing commands — here the empty
string — returns that list unchanged, so the result `[[]]` contains an
empty polygon, refuting "every element of the list returned by
path_to_poly_list is a non-empty sequence of points". -/
theorem claim7_cex :
    pathToPolyList "" = .ok [[]] ∧
    ([] : List (ℝ × ℝ)) ∈ ([[]] : List (List (ℝ × ℝ))) := by
  exact ⟨by rfl, List.mem_singleton.mpr rfl⟩

/-- Claim C8 (counterexample): in geo.py's `path_to_poly_list` the vertex
loop appends every returned vertex to the current subpath regardless of
the handler's `draw` flag, so the move-only path `"M 5,5"` yields the
single-point polygon `[(5,5)]`, refuting "PathInterpreter produces no
single-point polygon" for move-only input. -/
theorem claim8_cex :
    pathToPolyList "M 5,5" = .ok [[((5 : ℝ), 5)]] ∧
    [((5 : ℝ), 5)].length = 1 := by
  constructor
  · have h : pathToPolyList "M 5,5" = .ok [[(PyNum.toR ⟨5, 0⟩, PyNum.toR ⟨5, 0⟩)]] := by rfl
    rw [h]
    norm_num [PyNum.toR]
  · rfl

theorem errBind {α β : Type} (e : PyErr) (f : α → Except PyErr β) :
    (Except.error e >>= f) = .error e := rfl

theorem okBind {α β : Type} (a : α) (f : α → Except PyErr β) :
    (Except.ok a >>= f) = f a := rfl

theorem pureBind {α β : Type} (a : α) (f : α → Except PyErr β) :
    ((pure a : Except PyErr α) >>= f) = f a := rfl

/-- A command whose handler lookup raises `KeyError`, or whose values do
not all convert to float, executes `break`: the state reached so far is
returned unchanged. -/
theorem processCmds_stop (c : Char) (txt : List Char) (rest : List (Char × List Char))
    (st : PState) (h : handlerFor c.toUpper = none ∨ parseVals txt = none) :
    processCmds ((c, txt) :: rest) st = .ok st := by
  rcases h with h | h
  · simp [processCmds, h]
  · cases hh : handlerFor c.toUpper with
    | none => simp [processCmds, hh]
    | some hdl => simp [processCmds, hh, h]

/-- Interpreting a command list that continues past a breaking suffix is
the same as interpreting only the part before it. -/
theorem processCmds_append_of_stop (pre l : List (Char × List Char))
    (hl : ∀ st, processCmds l st = .ok st) :
    ∀ st : PState, processCmds (pre ++ l) st = processCmds pre st := by
  induction pre with
  | nil =>
    intro st
    simp only [List.nil_append, hl st]
    rfl
  | cons hd tl ih =>
    intro st
    obtain ⟨cmd, t⟩ := hd
    simp only [List.cons_append]
    rw [processCmds, processCmds]
    cases hh : handlerFor cmd.toUpper with
    | none => rfl
    | some hdl =>
      cases hv : parseVals t with
      | none => rfl
      | some vals =>
        simp only []
        cases hr : runSegments hdl cmd (cmd = cmd.toUpper) (vals.map PyNum.toR).length
            (vals.map PyNum.toR)
            (if hdl.draw = false && !st.cur.isEmpty then ⟨st.done ++ [st.cur], [], st.cursor⟩
             else st) with
        | error e => rw [errBind, errBind]
        | ok st2 =>
          rw [okBind, okBind]
          by_cases hz : cmd.toUpper = 'Z'
          · rw [if_pos hz, if_pos hz]
            cases hg : listGet st2.cur 0 with
            | error e => rw [errBind, errBind]
            | ok first => rw [okBind, okBind, pureBind, pureBind, ih]
          · rw [if_neg hz, if_neg hz, pureBind, pureBind, ih]

/-- Claim C6: an unrecognized command letter (no `handlers` entry, e.g.
`Q`) or a value group that does not convert to floats stops
interpretation at that command without an unhandled error, and the result
is exactly that of the already-interpreted prefix; on `"M0,0 Qbad"` the
function returns normally with the fragment parsed before the
unrecognized command — which, the tokenizer having dropped the compact
`M0,0` group as the pre-match head, is the empty fragment `[[]]`
(one polygon with no points). -/
theorem claim6_unrecognized_recovers :
    (∀ (pre : List (Char × List Char)) (c : Char) (txt : List Char)
      (rest : List (Char × List Char)) (st : PState), handlerFor c.toUpper = none →
      processCmds (pre ++ (c, txt) :: rest) st = processCmds pre st) ∧
    (∀ (pre : List (Char × List Char)) (c : Char) (txt : List Char)
      (rest : List (Char × List Char)) (st : PState), parseVals txt = none →
      processCmds (pre ++ (c, txt) :: rest) st = processCmds pre st) ∧
    pathToPolyList "M0,0 Qbad" = .ok [[]] := by
  refine ⟨?_, ?_, by rfl⟩
  · intro pre c txt rest st h
    exact processCmds_append_of_stop pre _
      (fun st' => processCmds_stop c txt rest st' (Or.inl h)) st
  · intro pre c txt rest st h
    exact processCmds_append_of_stop pre _
      (fun st' => processCmds_stop c txt rest st' (Or.inr h)) st

/-- Witness for C6 at concrete inputs: an unknown `Q` command after an
`M`, and an `L` command with unconvertible values, each reduce to the
interpretation of the prefix alone. -/
theorem claim6_witness :
    processCmds ([('M', " 0 0".toList)] ++ ('Q', "bad".toList) :: []) ⟨[], [], [0, 0]⟩ =
      processCmds [('M', " 0 0".toList)] ⟨[], [], [0, 0]⟩ ∧
    processCmds ([('M', " 0 0".toList)] ++ ('L', "x y".toList) :: []) ⟨[], [], [0, 0]⟩ =
      processCmds [('M', " 0 0".toList)] ⟨[], [], [0, 0]⟩ := by
  constructor
  · exact claim6_unrecognized_recovers.1 [('M', " 0 0".toList)] 'Q' "bad".toList [] _ (by decide)
  · exact claim6_unrecognized_recovers.2.1 [('M', " 0 0".toList)] 'L' "x y".toList [] _ (by decide)

theorem foldl_vertex_done (vlist : List (List ℝ)) (st : PState) :
    (vlist.foldl (fun s v => ⟨s.done, s.cur ++ [v], v⟩) st).done = st.done := by
  induction vlist generalizing st with
  | nil => rfl
  | cons v vs ih => simpa using ih ⟨st.done, st.cur ++ [v], v⟩

theorem runSegments_done (h : Handler) (cmd : Char) (absolute : Bool) :
    ∀ (fuel : ℕ) (vals : List ℝ) (st st' : PState),
      runSegments h cmd absolute fuel vals st = .ok st' → st'.done = st.done := by
  intro fuel
  induction fuel with
  | zero =>
    intro vals st st' hr
    cases vals with
    | nil =>
      simp only [runSegments] at hr
      obtain rfl := Except.ok.inj hr
      rfl
    | cons v vs =>
      simp only [runSegments] at hr
      obtain rfl := Except.ok.inj hr
      rfl
  | succ n ih =>
    intro vals st st' hr
    cases vals with
    | nil =>
      simp only [runSegments] at hr
      obtain rfl := Except.ok.inj hr
      rfl
    | cons v vs =>
      simp only [runSegments] at hr
      cases hp : h.pathFn with
      | none =>
        simp only [hp] at hr
        obtain rfl := Except.ok.inj hr
        rfl
      | some pf =>
        simp only [hp] at hr
        cases he : evalPathFn pf cmd st.cursor ((v :: vs).take h.len) absolute with
        | error e =>
          rw [he, errBind] at hr
          exact Except.noConfusion hr
        | ok vlist =>
          simp only [he, okBind] at hr
          have hd := ih _ _ _ hr
          rw [hd, foldl_vertex_done]

theorem processCmds_done_inv :
    ∀ (cmds : List (Char × List Char)) (st st' : PState),
      processCmds cmds st = .ok st' →
      (∀ p ∈ st.done, p ≠ []) → (∀ p ∈ st'.done, p ≠ []) := by
  intro cmds
  induction cmds with
  | nil =>
    intro st st' hr hinv
    obtain rfl := Except.ok.inj hr
    exact hinv
  | cons hd tl ih =>
    intro st st' hr hinv
    obtain ⟨cmd, t⟩ := hd
    rw [processCmds] at hr
    cases hh : handlerFor cmd.toUpper with
    | none =>
      simp only [hh] at hr
      obtain rfl := Except.ok.inj hr
      exact hinv
    | some hdl =>
      simp only [hh] at hr
      cases hv : parseVals t with
      | none =>
        simp only [hv] at hr
        obtain rfl := Except.ok.inj hr
        exact hinv
      | some vals =>
        simp only [hv] at hr
        set st1 := if hdl.draw = false && !st.cur.isEmpty then
            (⟨st.done ++ [st.cur], [], st.cursor⟩ : PState) else st with hst1
        have hinv1 : ∀ p ∈ st1.done, p ≠ [] := by
          rw [hst1]
          split_ifs with hg
          · intro p hp
            rcases List.mem_append.mp hp with h1 | h1
            · exact hinv p h1
            · obtain rfl := List.mem_singleton.mp h1
              have : st.cur.isEmpty = false := by
                have h2 := (Bool.and_eq_true _ _).mp hg
                simpa using h2.2
              simpa [List.isEmpty_iff] using this
          · exact hinv
        cases hrs : runSegments hdl cmd (cmd = cmd.toUpper) (vals.map PyNum.toR).length
            (vals.map PyNum.toR) st1 with
        | error e =>
          rw [hrs, errBind] at hr
          exact Except.noConfusion hr
        | ok st2 =>
          rw [hrs, okBind] at hr
          have hst2done := runSegments_done _ _ _ _ _ _ _ hrs
          have hinv2 : ∀ p ∈ st2.done, p ≠ [] := by rw [hst2done]; exact hinv1
          by_cases hz : cmd.toUpper = 'Z'
          · rw [if_pos hz] at hr
            cases hg : listGet st2.cur 0 with
            | error e =>
              rw [hg, errBind] at hr
              exact Except.noConfusion hr
            | ok first =>
              rw [hg, okBind, pureBind] at hr
              exact ih _ _ hr hinv2
          · rw [if_neg hz, pureBind] at hr
            exact ih _ _ hr hinv2

theorem mapM_ok_length {α β : Type} (f : α → Except PyErr β) :
    ∀ (l : List α) (r : List β), l.mapM f = .ok r → r.length = l.length := by
  intro l
  induction l with
  | nil =>
    intro r hr
    rw [List.mapM_nil] at hr
    obtain rfl := Except.ok.inj hr
    rfl
  | cons a t ih =>
    intro r hr
    rw [List.mapM_cons] at hr
    cases ha : f a with
    | error e => rw [ha, errBind] at hr; exact Except.noConfusion hr
    | ok b =>
      rw [ha, okBind] at hr
      cases ht : t.mapM f with
      | error e => rw [ht, errBind] at hr; exact Except.noConfusion hr
      | ok bs =>
        rw [ht, okBind] at hr
        obtain rfl := Except.ok.inj hr
        simp [ih bs ht]

theorem mapM_append_ok {α β : Type} (f : α → Except PyErr β) :
    ∀ (a b : List α) (r : List β), (a ++ b).mapM f = .ok r →
      ∃ ra rb, a.mapM f = .ok ra ∧ b.mapM f = .ok rb ∧ r = ra ++ rb := by
  intro a
  induction a with
  | nil =>
    intro b r hr
    exact ⟨[], r, rfl, by simpa using hr, rfl⟩
  | cons x t ih =>
    intro b r hr
    rw [List.cons_append, List.mapM_cons] at hr
    cases hx : f x with
    | error e => rw [hx, errBind] at hr; exact Except.noConfusion hr
    | ok y =>
      rw [hx, okBind] at hr
      cases ht : (t ++ b).mapM f with
      | error e => rw [ht, errBind] at hr; exact Except.noConfusion hr
      | ok ys =>
        rw [ht, okBind] at hr
        obtain rfl := Except.ok.inj hr
        obtain ⟨ra, rb, hra, hrb, rfl⟩ := ih b ys ht
        refine ⟨y :: ra, rb, ?_, hrb, rfl⟩
        rw [List.mapM_cons, hx, okBind, hra, okBind]
        rfl

theorem mapM_finalize_nonempty :
    ∀ (ps : List (List (List ℝ))) (rs : List (List (ℝ × ℝ))),
      ps.mapM finalizePoly = .ok rs → (∀ p ∈ ps, p ≠ []) → ∀ q ∈ rs, q ≠ [] := by
  intro ps
  induction ps with
  | nil =>
    intro rs hr _
    rw [List.mapM_nil] at hr
    obtain rfl := Except.ok.inj hr
    intro q hq
    exact absurd hq (List.not_mem_nil q)
  | cons p t ih =>
    intro rs hr hinv
    rw [List.mapM_cons] at hr
    cases hp : finalizePoly p with
    | error e => rw [hp, errBind] at hr; exact Except.noConfusion hr
    | ok q0 =>
      rw [hp, okBind] at hr
      cases ht : t.mapM finalizePoly with
      | error e => rw [ht, errBind] at hr; exact Except.noConfusion hr
      | ok qs =>
        rw [ht, okBind] at hr
        obtain rfl := Except.ok.inj hr
        intro q hq
        rcases List.mem_cons.mp hq with rfl | hq
        · have hlen : q.length = p.length := mapM_ok_length _ _ _ hp
          have hne : p ≠ [] := hinv p (List.mem_cons_self p t)
          intro hq0
          apply hne
          have : p.length = 0 := by rw [← hlen, hq0]; rfl
          exact List.length_eq_zero.mp this
        · exact ih qs ht (fun r hr' => hinv r (List.mem_cons_of_mem p hr')) q hq

/-- Claim C7 (amended): the list returned by `path_to_poly_list` is
non-empty and every element except possibly the last is a non-empty
sequence of points; the trailing element may be empty (see the
counterexample on the empty path string).  A new subpath is opened by `M`
only when the current one is non-empty, so only the final accumulator can
be empty. -/
theorem claim7_amended (path : String) (l : List (List (ℝ × ℝ)))
    (h : pathToPolyList path = .ok l) :
    l ≠ [] ∧ ∀ poly ∈ l.dropLast, poly ≠ [] := by
  rw [pathToPolyList] at h
  cases hp : processCmds (tokenizePath path) ⟨[], [], [0, 0]⟩ with
  | error e => rw [hp, errBind] at h; exact Except.noConfusion h
  | ok st =>
    rw [hp, okBind] at h
    have hinv : ∀ p ∈ st.done, p ≠ [] :=
      processCmds_done_inv _ _ _ hp (by intro p hp'; exact absurd hp' (List.not_mem_nil p))
    obtain ⟨ra, rb, hra, hrb, rfl⟩ := mapM_append_ok _ _ _ _ h
    have hrbl : rb.length = 1 := by simpa using mapM_ok_length _ _ _ hrb
    obtain ⟨q, rfl⟩ := List.length_eq_one.mp hrbl
    constructor
    · simp
    · rw [List.dropLast_concat]
      exact mapM_finalize_nonempty _ _ hra hinv

/-- Witness for C7 at the concrete input `""`, whose result `[[]]` has a
non-empty polygon list with nothing before the trailing element. -/
theorem claim7_witness :
    ([[]] : List (List (ℝ × ℝ))) ≠ [] ∧
    ∀ poly ∈ ([[]] : List (List (ℝ × ℝ))).dropLast, poly ≠ [] :=
  claim7_amended "" [[]] (by rfl)

theorem foldl_obj_poly_of_nodraw (h : Handler) (hd : h.draw = false) :
    ∀ (vlist : List (List ℝ)) (st : OState),
      (vlist.foldl (fun (s : OState) v => ⟨if h.draw then s.poly ++ [v] else s.poly, v⟩) st).poly
        = st.poly := by
  intro vlist
  induction vlist with
  | nil => intro st; rfl
  | cons v vs ih =>
    intro st
    simp only [List.foldl_cons]
    rw [ih]
    simp [hd]

theorem runSegmentsObj_poly_of_nodraw (h : Handler) (hd : h.draw = false)
    (cmd : Char) (absolute : Bool) :
    ∀ (fuel : ℕ) (vals : List ℝ) (st st' : OState),
      runSegmentsObj h cmd absolute fuel vals st = .ok st' → st'.poly = st.poly := by
  intro fuel
  induction fuel with
  | zero =>
    intro vals st st' hr
    cases vals with
    | nil =>
      simp only [runSegmentsObj] at hr
      obtain rfl := Except.ok.inj hr
      rfl
    | cons v vs =>
      simp only [runSegmentsObj] at hr
      obtain rfl := Except.ok.inj hr
      rfl
  | succ n ih =>
    intro vals st st' hr
    cases vals with
    | nil =>
      simp only [runSegmentsObj] at hr
      obtain rfl := Except.ok.inj hr
      rfl
    | cons v vs =>
      simp only [runSegmentsObj] at hr
      cases hp : h.pathFn with
      | none =>
        simp only [hp] at hr
        obtain rfl := Except.ok.inj hr
        rfl
      | some pf =>
        simp only [hp] at hr
        cases he : evalPathFn pf cmd st.cursor ((v :: vs).take h.len) absolute with
        | error e =>
          rw [he, errBind] at hr
          exact Except.noConfusion hr
        | ok vlist =>
          rw [he, okBind] at hr
          have h1 := ih _ _ _ hr
          rw [h1, foldl_obj_poly_of_nodraw h hd]

theorem processCmdsObj_moveonly :
    ∀ (cmds : List (Char × List Char)) (st st' : OState),
      (∀ x ∈ cmds, (x : Char × List Char).1.toUpper = 'M') →
      processCmdsObj cmds st = .ok st' → st'.poly = st.poly := by
  intro cmds
  induction cmds with
  | nil =>
    intro st st' _ hr
    obtain rfl := Except.ok.inj hr
    rfl
  | cons hd tl ih =>
    intro st st' hM hr
    obtain ⟨cmd, t⟩ := hd
    have hcmd : cmd.toUpper = 'M' := hM (cmd, t) (List.mem_cons_self _ _)
    rw [processCmdsObj, hcmd] at hr
    have hhandler : handlerFor 'M' = some ⟨2, false, some .linear⟩ := by rfl
    simp only [hhandler] at hr
    cases hv : parseVals t with
    | none =>
      simp only [hv] at hr
      obtain rfl := Except.ok.inj hr
      rfl
    | some vals =>
      simp only [hv] at hr
      simp only [Bool.false_and, Bool.false_eq_true, if_false] at hr
      cases hrs : runSegmentsObj ⟨2, false, some .linear⟩ cmd (cmd = 'M')
          (vals.map PyNum.toR).length (vals.map PyNum.toR) st with
      | error e =>
        rw [hrs, errBind] at hr
        exact Except.noConfusion hr
      | ok st2 =>
        rw [hrs, okBind] at hr
        have h1 := ih _ _ (fun x hx => hM x (List.mem_cons_of_mem _ hx)) hr
        have h2 := runSegmentsObj_poly_of_nodraw ⟨2, false, some .linear⟩ rfl cmd
          (cmd = 'M') _ _ _ _ hrs
        rw [h1, h2]

/-- Claim C8 (amended): svg2obj.py's `path_to_poly` appends points only
under drawing commands, so on a path whose commands are all MoveTo it
returns no points at all whenever it returns; geo.py's `path_to_poly_list`
instead appends MoveTo target points, and on `"M 5,5"` yields a
single-point polygon (see the counterexample). -/
theorem claim8_amended (s : String) (l : List (ℝ × ℝ))
    (hM : ∀ x ∈ tokenizePath s, (x : Char × List Char).1.toUpper = 'M')
    (h : pathToPolyObj s = .ok l) : l = [] := by
  rw [pathToPolyObj] at h
  cases hp : processCmdsObj (tokenizePath s) ⟨[], [0, 0]⟩ with
  | error e => rw [hp, errBind] at h; exact Except.noConfusion h
  | ok st =>
    rw [hp, okBind] at h
    have hpoly : st.poly = [] := processCmdsObj_moveonly _ _ _ hM hp
    rw [hpoly] at h
    rw [List.mapM_nil] at h
    exact (Except.ok.inj h).symm

/-- Witness for C8 at the concrete move-only input `"M 5,5"`, on which
svg2obj.py's `path_to_poly` returns the empty polygon. -/
theorem claim8_witness : ([] : List (ℝ × ℝ)) = [] :=
  claim8_amended "M 5,5" [] (by decide) (by rfl)

theorem tf_not_space {c : Char} (h : isTfChar c = true) : isPySpace c = false := by
  by_contra hc
  have hs : isPySpace c = true := by revert hc; cases isPySpace c <;> simp
  simp only [isPySpace, Bool.or_eq_true, decide_eq_true_eq] at hs
  rcases hs with ((((rfl | rfl) | rfl) | rfl) | rfl) | rfl <;> simp [isTfChar] at h

theorem collapseWs_id : ∀ cs : List Char, (∀ c ∈ cs, isPySpace c = false) → collapseWs cs = cs := by
  intro cs
  induction cs with
  | nil => intro _; rfl
  | cons c t ih =>
    intro h
    cases t with
    | nil => simp [collapseWs, h c (by simp)]
    | cons c1 t1 =>
      rw [collapseWs]
      have h0 := h c (by simp)
      have h1 := h c1 (by simp)
      rw [h0, h1]
      simp only [Bool.false_and, Bool.false_eq_true, if_false]
      rw [ih (fun x hx => h x (List.mem_cons_of_mem _ hx))]

theorem dropWhile_id {p : Char → Bool} : ∀ cs : List Char, (∀ c ∈ cs, p c = false) →
    cs.dropWhile p = cs := by
  intro cs h
  cases cs with
  | nil => rfl
  | cons c t => rw [List.dropWhile_cons, h c (by simp)]; simp

theorem pyStrip_id (cs : List Char) (h : ∀ c ∈ cs, isPySpace c = false) : pyStrip cs = cs := by
  rw [pyStrip, dropWhile_id cs h, dropWhile_id cs.reverse (by
    intro c hc; exact h c (List.mem_reverse.mp hc)), List.reverse_reverse]

theorem cleanWhitespace_id (cs : List Char) (h : ∀ c ∈ cs, isPySpace c = false) :
    cleanWhitespace cs = cs := by
  rw [cleanWhitespace, collapseWs_id cs h, pyStrip_id cs h]

theorem takeWhile_append_stop {p : Char → Bool} :
    ∀ (g : List Char) (d : Char) (r : List Char), (∀ c ∈ g, p c = true) → p d = false →
      (g ++ d :: r).takeWhile p = g ∧ (g ++ d :: r).drop g.length = d :: r := by
  intro g d r hg hd
  constructor
  · induction g with
    | nil => simp [List.takeWhile_cons, hd]
    | cons c t ih =>
      have h' := ih (fun x hx => hg x (List.mem_cons_of_mem _ hx))
      simp [List.takeWhile_cons, hg c (by simp), h']
  · exact List.drop_left g (d :: r)

theorem grabGroup_exact (g : List Char) (d : Char) (r : List Char)
    (hne : g ≠ []) (hg : ∀ c ∈ g, isTfChar c = true) (hd : isTfChar d = false) :
    grabGroup (g ++ d :: r) = some (g, d :: r) := by
  obtain ⟨ht, hdr⟩ := takeWhile_append_stop g d r hg hd
  rw [grabGroup, ht, hdr]
  simp [List.isEmpty_iff, hne]

/-- Join argument groups with comma separators, as they appear in a
transform expression. -/
def joinArgs : List (List Char) → List Char
  | [] => []
  | [g] => g
  | g :: gs => g ++ ',' :: joinArgs gs

theorem parseGroups_join :
    ∀ (gs : List (List Char)) (rest : List Char), gs ≠ [] →
      (∀ g ∈ gs, g ≠ [] ∧ ∀ c ∈ g, isTfChar c = true) →
      parseGroups gs.length (joinArgs gs ++ ')' :: rest) = some gs := by
  intro gs
  induction gs with
  | nil => intro rest h _; exact absurd rfl h
  | cons g tl ih =>
    intro rest _ hall
    obtain ⟨hgne, hgtf⟩ := hall g (by simp)
    cases tl with
    | nil =>
      show parseGroups 1 (g ++ ')' :: rest) = some [g]
      rw [parseGroups, grabGroup_exact g ')' rest hgne hgtf (by decide)]
      rfl
    | cons g2 tl2 =>
      show parseGroups ((g2 :: tl2).length + 1) (joinArgs (g :: g2 :: tl2) ++ ')' :: rest) = _
      have hj : joinArgs (g :: g2 :: tl2) ++ ')' :: rest =
          g ++ ',' :: (joinArgs (g2 :: tl2) ++ ')' :: rest) := by
        show (g ++ ',' :: joinArgs (g2 :: tl2)) ++ ')' :: rest = _
        simp [List.append_assoc]
      rw [hj]
      have := ih (rest) (by simp) (fun x hx => hall x (List.mem_cons_of_mem _ hx))
      cases h2 : (g2 :: tl2).length with
      | zero => simp at h2
      | succ m =>
        show parseGroups (m + 1 + 1) _ = _
        cases m with
        | zero =>
          rw [parseGroups, grabGroup_exact g ',' _ hgne hgtf (by decide)]
          simp only [Option.bind_eq_bind, Option.some_bind]
          rw [h2] at this
          rw [this]
          rfl
        | succ m2 =>
          rw [parseGroups, grabGroup_exact g ',' _ hgne hgtf (by decide)]
          simp only [Option.bind_eq_bind, Option.some_bind]
          rw [h2] at this
          rw [this]
          rfl

theorem dropLit_self : ∀ (p r : List Char), dropLit p (p ++ r) = some r := by
  intro p
  induction p with
  | nil => intro r; rfl
  | cons c t ih => intro r; simp [dropLit, ih r]

theorem tryForm_match (name : List Char) (k : ℕ) (body : List Char) :
    tryForm name k (name ++ '(' :: body) = parseGroups k body := by
  rw [tryForm]
  have : name ++ '(' :: body = (name ++ ['(']) ++ body := by simp
  rw [this, dropLit_self]
  rfl

theorem tryForm_head_ne (n0 : Char) (ns : List Char) (k : ℕ) (c0 : Char) (cs : List Char)
    (h : c0 ≠ n0) : tryForm (n0 :: ns) k (c0 :: cs) = none := by
  rw [tryForm]
  show Option.bind (dropLit ((n0 :: ns) ++ ['(']) (c0 :: cs)) _ = none
  rw [List.cons_append]
  show Option.bind (if c0 = n0 then dropLit (ns ++ ['(']) cs else none) _ = none
  rw [if_neg h]
  rfl

/-- A transform argument group: non-empty, inside the class `[0-9.e-]`,
and convertible by `float`. -/
def GoodArg (s : List Char) (p : PyNum) : Prop :=
  s ≠ [] ∧ (∀ c ∈ s, isTfChar c = true) ∧ pyFloat s = some p

theorem nospace_of_tf {l : List Char} (h : ∀ c ∈ l, isTfChar c = true) :
    ∀ c ∈ l, isPySpace c = false :=
  fun c hc => tf_not_space (h c hc)

theorem nospace_append {l1 l2 : List Char} (h1 : ∀ c ∈ l1, isPySpace c = false)
    (h2 : ∀ c ∈ l2, isPySpace c = false) : ∀ c ∈ l1 ++ l2, isPySpace c = false := by
  intro c hc
  rcases List.mem_append.mp hc with hc | hc
  · exact h1 c hc
  · exact h2 c hc

theorem nospace_cons {c0 : Char} {l : List Char} (h0 : isPySpace c0 = false)
    (h : ∀ c ∈ l, isPySpace c = false) : ∀ c ∈ c0 :: l, isPySpace c = false := by
  intro c hc
  rcases List.mem_cons.mp hc with rfl | hc
  · exact h0
  · exact h c hc

theorem nospace_join : ∀ (gs : List (List Char)),
    (∀ g ∈ gs, ∀ c ∈ g, isTfChar c = true) →
    ∀ c ∈ joinArgs gs, isPySpace c = false := by
  intro gs
  induction gs with
  | nil => intro _ c hc; exact absurd hc (List.not_mem_nil c)
  | cons g tl ih =>
    intro h
    cases tl with
    | nil => exact nospace_of_tf (h g (by simp))
    | cons g2 tl2 =>
      show ∀ c ∈ g ++ ',' :: joinArgs (g2 :: tl2), _
      exact nospace_append (nospace_of_tf (h g (by simp)))
        (nospace_cons (by decide) (ih (fun x hx => h x (List.mem_cons_of_mem _ hx))))

theorem parseGroups_one_comma (g r : List Char) (hne : g ≠ [])
    (htf : ∀ c ∈ g, isTfChar c = true) : parseGroups 1 (g ++ ',' :: r) = none := by
  rw [parseGroups, grabGroup_exact g ',' r hne htf (by decide)]
  rfl

theorem parseGroups_more_close (k : ℕ) (g r : List Char) (hne : g ≠ [])
    (htf : ∀ c ∈ g, isTfChar c = true) : parseGroups (k + 2) (g ++ ')' :: r) = none := by
  rw [parseGroups, grabGroup_exact g ')' r hne htf (by decide)]
  rfl

/-- `rotate(θ)` parses to the rotation matrix of θ degrees. -/
theorem rotateOne_parse (a : List Char) (pa : PyNum) (ha : GoodArg a pa) :
    parseTransform (String.mk ("rotate(".toList ++ a ++ [')'])) =
      .ok (some (rotateForm (radians pa.toR))) := by
  obtain ⟨hane, hatf, haf⟩ := ha
  rw [parseTransform]
  have hclean : cleanWhitespace (String.mk ("rotate(".toList ++ a ++ [')'])).toList =
      "rotate(".toList ++ a ++ [')'] := by
    apply cleanWhitespace_id
    exact nospace_append (nospace_append (by decide) (nospace_of_tf hatf)) (by decide)
  rw [hclean]
  have hm : tryForm "matrix".toList 6 ("rotate(".toList ++ a ++ [')']) = none :=
    tryForm_head_ne 'm' _ 6 'r' _ (by decide)
  have ht2 : tryForm "translate".toList 2 ("rotate(".toList ++ a ++ [')']) = none :=
    tryForm_head_ne 't' _ 2 'r' _ (by decide)
  have ht1 : tryForm "translate".toList 1 ("rotate(".toList ++ a ++ [')']) = none :=
    tryForm_head_ne 't' _ 1 'r' _ (by decide)
  have hr1 : tryForm "rotate".toList 1 ("rotate(".toList ++ a ++ [')']) = some [a] := by
    have hb : "rotate(".toList ++ a ++ [')'] = "rotate".toList ++ '(' :: (a ++ [')']) := by simp
    rw [hb, tryForm_match]
    have := parseGroups_join [a] [] (by simp) (by
      intro g hg
      obtain rfl := List.mem_singleton.mp hg
      exact ⟨hane, hatf⟩)
    simpa [joinArgs] using this
  rw [hm, ht2, ht1, hr1]
  simp only [floatsOf, List.mapM_cons, List.mapM_nil, haf, Option.bind_eq_bind,
    Option.some_bind, Option.pure_def]
  rfl

/-- `rotate(θ,cx,cy)` parses to the translate–rotate–translate product. -/
theorem rotateThree_parse (a cx cy : List Char) (pa pcx pcy : PyNum)
    (ha : GoodArg a pa) (hcx : GoodArg cx pcx) (hcy : GoodArg cy pcy) :
    parseTransform (String.mk ("rotate(".toList ++ a ++ ',' :: cx ++ ',' :: cy ++ [')'])) =
      .ok (some (translateForm pcx.toR pcy.toR * rotateForm (radians pa.toR) *
        translateForm (-pcx.toR) (-pcy.toR))) := by
  obtain ⟨hane, hatf, haf⟩ := ha
  obtain ⟨hcxne, hcxtf, hcxf⟩ := hcx
  obtain ⟨hcyne, hcytf, hcyf⟩ := hcy
  rw [parseTransform]
  have hclean : cleanWhitespace
      (String.mk ("rotate(".toList ++ a ++ ',' :: cx ++ ',' :: cy ++ [')'])).toList =
      "rotate(".toList ++ a ++ ',' :: cx ++ ',' :: cy ++ [')'] := by
    apply cleanWhitespace_id
    exact nospace_append (nospace_append (nospace_append
      (nospace_append (by decide) (nospace_of_tf hatf))
      (nospace_cons (by decide) (nospace_of_tf hcxtf)))
      (nospace_cons (by decide) (nospace_of_tf hcytf))) (by decide)
  rw [hclean]
  have hm : tryForm "matrix".toList 6
      ("rotate(".toList ++ a ++ ',' :: cx ++ ',' :: cy ++ [')']) = none :=
    tryForm_head_ne 'm' _ 6 'r' _ (by decide)
  have ht2 : tryForm "translate".toList 2
      ("rotate(".toList ++ a ++ ',' :: cx ++ ',' :: cy ++ [')']) = none :=
    tryForm_head_ne 't' _ 2 'r' _ (by decide)
  have ht1 : tryForm "translate".toList 1
      ("rotate(".toList ++ a ++ ',' :: cx ++ ',' :: cy ++ [')']) = none :=
    tryForm_head_ne 't' _ 1 'r' _ (by decide)
  have hr1 : tryForm "rotate".toList 1
      ("rotate(".toList ++ a ++ ',' :: cx ++ ',' :: cy ++ [')']) = none := by
    have hb : "rotate(".toList ++ a ++ ',' :: cx ++ ',' :: cy ++ [')'] =
        "rotate".toList ++ '(' :: (a ++ ',' :: (cx ++ ',' :: (cy ++ [')']))) := by
      simp
    rw [hb, tryForm_match]
    exact parseGroups_one_comma a _ hane hatf
  have hr3 : tryForm "rotate".toList 3
      ("rotate(".toList ++ a ++ ',' :: cx ++ ',' :: cy ++ [')']) = some [a, cx, cy] := by
    have hb : "rotate(".toList ++ a ++ ',' :: cx ++ ',' :: cy ++ [')'] =
        "rotate".toList ++ '(' :: (joinArgs [a, cx, cy] ++ ')' :: []) := by
      simp [joinArgs]
    rw [hb, tryForm_match]
    exact parseGroups_join [a, cx, cy] [] (by simp) (by
      intro g hg
      rcases List.mem_cons.mp hg with rfl | hg
      · exact ⟨hane, hatf⟩
      rcases List.mem_cons.mp hg with rfl | hg
      · exact ⟨hcxne, hcxtf⟩
      obtain rfl := List.mem_singleton.mp hg
      exact ⟨hcyne, hcytf⟩)
  rw [hm, ht2, ht1, hr1, hr3]
  simp only [floatsOf, List.mapM_cons, List.mapM_nil, haf, hcxf, hcyf, Option.bind_eq_bind,
    Option.some_bind, Option.pure_def]
  rfl

/-- Claim C2: on `rotate(θ)` (θ in degrees) `parse_transform` returns
exactly the matrix `[[cos θ, sin θ, 0], [-sin θ, cos θ, 0], [0, 0, 1]]`
with θ converted to radians, and on `rotate(θ,cx,cy)` the product
`translate(cx,cy) · rotate(θ) · translate(-cx,-cy)` in that order, for
every recognized argument tuple (non-empty `[0-9.e-]` groups that
`float` accepts). -/
theorem claim2_rotate (a cx cy : List Char) (pa pcx pcy : PyNum)
    (ha : GoodArg a pa) (hcx : GoodArg cx pcx) (hcy : GoodArg cy pcy) :
    parseTransform (String.mk ("rotate(".toList ++ a ++ [')'])) =
      .ok (some (rotateForm (radians pa.toR))) ∧
    parseTransform (String.mk ("rotate(".toList ++ a ++ ',' :: cx ++ ',' :: cy ++ [')'])) =
      .ok (some (translateForm pcx.toR pcy.toR * rotateForm (radians pa.toR) *
        translateForm (-pcx.toR) (-pcy.toR))) :=
  ⟨rotateOne_parse a pa ha, rotateThree_parse a cx cy pa pcx pcy ha hcx hcy⟩

/-- Witness for C2 at `rotate(90)` and `rotate(90,5,5)`. -/
theorem claim2_witness :
    parseTransform (String.mk ("rotate(".toList ++ "90".toList ++ [')'])) =
      .ok (some (rotateForm (radians (PyNum.toR ⟨90, 0⟩)))) ∧
    parseTransform (String.mk
        ("rotate(".toList ++ "90".toList ++ ',' :: "5".toList ++ ',' :: "5".toList ++ [')'])) =
      .ok (some (translateForm (PyNum.toR ⟨5, 0⟩) (PyNum.toR ⟨5, 0⟩) *
        rotateForm (radians (PyNum.toR ⟨90, 0⟩)) *
        translateForm (-PyNum.toR ⟨5, 0⟩) (-PyNum.toR ⟨5, 0⟩))) :=
  claim2_rotate "90".toList "5".toList "5".toList ⟨90, 0⟩ ⟨5, 0⟩ ⟨5, 0⟩
    ⟨by decide, by decide, by decide⟩ ⟨by decide, by decide, by decide⟩
    ⟨by decide, by decide, by decide⟩

/-- `matrix(a,b,c,d,e,f)` parses to `[[a,c,e],[b,d,f],[0,0,1]]`. -/
theorem matrixSix_parse (a b c d e f : List Char) (pa pb pc pd pe pf : PyNum)
    (ha : GoodArg a pa) (hb : GoodArg b pb) (hc : GoodArg c pc)
    (hd : GoodArg d pd) (he : GoodArg e pe) (hf : GoodArg f pf) :
    parseTransform (String.mk ("matrix(".toList ++ joinArgs [a, b, c, d, e, f] ++ [')'])) =
      .ok (some (matrixForm pa.toR pb.toR pc.toR pd.toR pe.toR pf.toR)) := by
  have hall : ∀ g ∈ [a, b, c, d, e, f], g ≠ [] ∧ ∀ ch ∈ g, isTfChar ch = true := by
    intro g hg
    rcases List.mem_cons.mp hg with rfl | hg
    · exact ⟨ha.1, ha.2.1⟩
    rcases List.mem_cons.mp hg with rfl | hg
    · exact ⟨hb.1, hb.2.1⟩
    rcases List.mem_cons.mp hg with rfl | hg
    · exact ⟨hc.1, hc.2.1⟩
    rcases List.mem_cons.mp hg with rfl | hg
    · exact ⟨hd.1, hd.2.1⟩
    rcases List.mem_cons.mp hg with rfl | hg
    · exact ⟨he.1, he.2.1⟩
    obtain rfl := List.mem_singleton.mp hg
    exact ⟨hf.1, hf.2.1⟩
  rw [parseTransform]
  have hclean : cleanWhitespace
      (String.mk ("matrix(".toList ++ joinArgs [a, b, c, d, e, f] ++ [')'])).toList =
      "matrix(".toList ++ joinArgs [a, b, c, d, e, f] ++ [')'] := by
    apply cleanWhitespace_id
    exact nospace_append (nospace_append (by decide)
      (nospace_join _ (fun g hg => (hall g hg).2))) (by decide)
  rw [hclean]
  have hm : tryForm "matrix".toList 6
      ("matrix(".toList ++ joinArgs [a, b, c, d, e, f] ++ [')']) = some [a, b, c, d, e, f] := by
    have hb' : "matrix(".toList ++ joinArgs [a, b, c, d, e, f] ++ [')'] =
        "matrix".toList ++ '(' :: (joinArgs [a, b, c, d, e, f] ++ ')' :: []) := by simp
    rw [hb', tryForm_match]
    exact parseGroups_join [a, b, c, d, e, f] [] (by simp) hall
  rw [hm]
  simp only [floatsOf, List.mapM_cons, List.mapM_nil, ha.2.2, hb.2.2, hc.2.2, hd.2.2,
    he.2.2, hf.2.2, Option.bind_eq_bind, Option.some_bind, Option.pure_def]
  rfl

/-- `translate(tx,ty)` parses to the translation matrix. -/
theorem translateTwo_parse (a b : List Char) (pa pb : PyNum)
    (ha : GoodArg a pa) (hb : GoodArg b pb) :
    parseTransform (String.mk ("translate(".toList ++ joinArgs [a, b] ++ [')'])) =
      .ok (some (translateForm pa.toR pb.toR)) := by
  have hall : ∀ g ∈ [a, b], g ≠ [] ∧ ∀ ch ∈ g, isTfChar ch = true := by
    intro g hg
    rcases List.mem_cons.mp hg with rfl | hg
    · exact ⟨ha.1, ha.2.1⟩
    obtain rfl := List.mem_singleton.mp hg
    exact ⟨hb.1, hb.2.1⟩
  rw [parseTransform]
  have hclean : cleanWhitespace
      (String.mk ("translate(".toList ++ joinArgs [a, b] ++ [')'])).toList =
      "translate(".toList ++ joinArgs [a, b] ++ [')'] := by
    apply cleanWhitespace_id
    exact nospace_append (nospace_append (by decide)
      (nospace_join _ (fun g hg => (hall g hg).2))) (by decide)
  rw [hclean]
  have hm : tryForm "matrix".toList 6
      ("translate(".toList ++ joinArgs [a, b] ++ [')']) = none :=
    tryForm_head_ne 'm' _ 6 't' _ (by decide)
  have ht2 : tryForm "translate".toList 2
      ("translate(".toList ++ joinArgs [a, b] ++ [')']) = some [a, b] := by
    have hb' : "translate(".toList ++ joinArgs [a, b] ++ [')'] =
        "translate".toList ++ '(' :: (joinArgs [a, b] ++ ')' :: []) := by simp
    rw [hb', tryForm_match]
    exact parseGroups_join [a, b] [] (by simp) hall
  rw [hm, ht2]
  simp only [floatsOf, List.mapM_cons, List.mapM_nil, ha.2.2, hb.2.2, Option.bind_eq_bind,
    Option.some_bind, Option.pure_def]
  rfl

/-- `translate(tx)` parses to the translation matrix with `ty = 0`. -/
theorem translateOne_parse (a : List Char) (pa : PyNum) (ha : GoodArg a pa) :
    parseTransform (String.mk ("translate(".toList ++ a ++ [')'])) =
      .ok (some (translateForm pa.toR 0)) := by
  obtain ⟨hane, hatf, haf⟩ := ha
  rw [parseTransform]
  have hclean : cleanWhitespace (String.mk ("translate(".toList ++ a ++ [')'])).toList =
      "translate(".toList ++ a ++ [')'] := by
    apply cleanWhitespace_id
    exact nospace_append (nospace_append (by decide) (nospace_of_tf hatf)) (by decide)
  rw [hclean]
  have hm : tryForm "matrix".toList 6 ("translate(".toList ++ a ++ [')']) = none :=
    tryForm_head_ne 'm' _ 6 't' _ (by decide)
  have hb' : "translate(".toList ++ a ++ [')'] =
      "translate".toList ++ '(' :: (a ++ ')' :: []) := by simp
  have ht2 : tryForm "translate".toList 2 ("translate(".toList ++ a ++ [')']) = none := by
    rw [hb', tryForm_match]
    exact parseGroups_more_close 0 a [] hane hatf
  have ht1 : tryForm "translate".toList 1 ("translate(".toList ++ a ++ [')']) = some [a] := by
    rw [hb', tryForm_match]
    have := parseGroups_join [a] [] (by simp) (by
      intro g hg
      obtain rfl := List.mem_singleton.mp hg
      exact ⟨hane, hatf⟩)
    simpa [joinArgs] using this
  rw [hm, ht2, ht1]
  simp only [floatsOf, List.mapM_cons, List.mapM_nil, haf, Option.bind_eq_bind,
    Option.some_bind, Option.pure_def]
  rfl

/-- `scale(sx,sy)` parses to the diagonal scale matrix. -/
theorem scaleTwo_parse (a b : List Char) (pa pb : PyNum)
    (ha : GoodArg a pa) (hb : GoodArg b pb) :
    parseTransform (String.mk ("scale(".toList ++ joinArgs [a, b] ++ [')'])) =
      .ok (some (scaleForm pa.toR pb.toR)) := by
  have hall : ∀ g ∈ [a, b], g ≠ [] ∧ ∀ ch ∈ g, isTfChar ch = true := by
    intro g hg
    rcases List.mem_cons.mp hg with rfl | hg
    · exact ⟨ha.1, ha.2.1⟩
    obtain rfl := List.mem_singleton.mp hg
    exact ⟨hb.1, hb.2.1⟩
  rw [parseTransform]
  have hclean : cleanWhitespace
      (String.mk ("scale(".toList ++ joinArgs [a, b] ++ [')'])).toList =
      "scale(".toList ++ joinArgs [a, b] ++ [')'] := by
    apply cleanWhitespace_id
    exact nospace_append (nospace_append (by decide)
      (nospace_join _ (fun g hg => (hall g hg).2))) (by decide)
  rw [hclean]
  have hm : tryForm "matrix".toList 6 ("scale(".toList ++ joinArgs [a, b] ++ [')']) = none :=
    tryForm_head_ne 'm' _ 6 's' _ (by decide)
  have ht2 : tryForm "translate".toList 2 ("scale(".toList ++ joinArgs [a, b] ++ [')']) = none :=
    tryForm_head_ne 't' _ 2 's' _ (by decide)
  have ht1 : tryForm "translate".toList 1 ("scale(".toList ++ joinArgs [a, b] ++ [')']) = none :=
    tryForm_head_ne 't' _ 1 's' _ (by decide)
  have hr1 : tryForm "rotate".toList 1 ("scale(".toList ++ joinArgs [a, b] ++ [')']) = none :=
    tryForm_head_ne 'r' _ 1 's' _ (by decide)
  have hr3 : tryForm "rotate".toList 3 ("scale(".toList ++ joinArgs [a, b] ++ [')']) = none :=
    tryForm_head_ne 'r' _ 3 's' _ (by decide)
  have hs2 : tryForm "scale".toList 2
      ("scale(".toList ++ joinArgs [a, b] ++ [')']) = some [a, b] := by
    have hb' : "scale(".toList ++ joinArgs [a, b] ++ [')'] =
        "scale".toList ++ '(' :: (joinArgs [a, b] ++ ')' :: []) := by simp
    rw [hb', tryForm_match]
    exact parseGroups_join [a, b] [] (by simp) hall
  rw [hm, ht2, ht1, hr1, hr3, hs2]
  simp only [floatsOf, List.mapM_cons, List.mapM_nil, ha.2.2, hb.2.2, Option.bind_eq_bind,
    Option.some_bind, Option.pure_def]
  rfl

/-- `scale(s)` parses to the uniform scale matrix. -/
theorem scaleOne_parse (a : List Char) (pa : PyNum) (ha : GoodArg a pa) :
    parseTransform (String.mk ("scale(".toList ++ a ++ [')'])) =
      .ok (some (scaleForm pa.toR pa.toR)) := by
  obtain ⟨hane, hatf, haf⟩ := ha
  rw [parseTransform]
  have hclean : cleanWhitespace (String.mk ("scale(".toList ++ a ++ [')'])).toList =
      "scale(".toList ++ a ++ [')'] := by
    apply cleanWhitespace_id
    exact nospace_append (nospace_append (by decide) (nospace_of_tf hatf)) (by decide)
  rw [hclean]
  have hm : tryForm "matrix".toList 6 ("scale(".toList ++ a ++ [')']) = none :=
    tryForm_head_ne 'm' _ 6 's' _ (by decide)
  have ht2 : tryForm "translate".toList 2 ("scale(".toList ++ a ++ [')']) = none :=
    tryForm_head_ne 't' _ 2 's' _ (by decide)
  have ht1 : tryForm "translate".toList 1 ("scale(".toList ++ a ++ [')']) = none :=
    tryForm_head_ne 't' _ 1 's' _ (by decide)
  have hr1 : tryForm "rotate".toList 1 ("scale(".toList ++ a ++ [')']) = none :=
    tryForm_head_ne 'r' _ 1 's' _ (by decide)
  have hr3 : tryForm "rotate".toList 3 ("scale(".toList ++ a ++ [')']) = none :=
    tryForm_head_ne 'r' _ 3 's' _ (by decide)
  have hb' : "scale(".toList ++ a ++ [')'] = "scale".toList ++ '(' :: (a ++ ')' :: []) := by
    simp
  have hs2 : tryForm "scale".toList 2 ("scale(".toList ++ a ++ [')']) = none := by
    rw [hb', tryForm_match]
    exact parseGroups_more_close 0 a [] hane hatf
  have hs1 : tryForm "scale".toList 1 ("scale(".toList ++ a ++ [')']) = some [a] := by
    rw [hb', tryForm_match]
    have := parseGroups_join [a] [] (by simp) (by
      intro g hg
      obtain rfl := List.mem_singleton.mp hg
      exact ⟨hane, hatf⟩)
    simpa [joinArgs] using this
  rw [hm, ht2, ht1, hr1, hr3, hs2, hs1]
  simp only [floatsOf, List.mapM_cons, List.mapM_nil, haf, Option.bind_eq_bind,
    Option.some_bind, Option.pure_def]
  rfl

/-- Claim C4 (counterexample): the transform regexes require literal
commas between `[0-9.e-]+` groups, so the space-separated argument list
`translate(10 20)` matches no pattern and `parse_transform` returns
`None`, while the comma-separated `translate(10,20)` parses — refuting
"parses … whether the argument list is comma-separated or
space-separated, whitespace around arguments being insignificant". -/
theorem claim4_cex :
    parseTransform "translate(10 20)" = .ok none ∧
    parseTransform "translate(10,20)" =
      .ok (some (translateForm (PyNum.toR ⟨10, 0⟩) (PyNum.toR ⟨20, 0⟩))) :=
  ⟨by rfl, by rfl⟩

/-- Claim C4 (amended): for every recognized transform form — `matrix`
with six arguments, `translate` with two or one, `rotate` with one or
three, `scale` with two or one — arguments that are non-empty `[0-9.e-]`
strings accepted by `float` (so decimal points, a leading minus sign and
a lower-case exponent are allowed) parse successfully when
comma-separated with no whitespace around them; space-separated argument
lists or whitespace around arguments are not accepted (see the
counterexample). -/
theorem claim4_amended (a b c d e f : List Char) (pa pb pc pd pe pf : PyNum)
    (ha : GoodArg a pa) (hb : GoodArg b pb) (hc : GoodArg c pc) (hd : GoodArg d pd)
    (he : GoodArg e pe) (hf : GoodArg f pf) :
    parseTransform (String.mk ("matrix(".toList ++ joinArgs [a, b, c, d, e, f] ++ [')'])) =
      .ok (some (matrixForm pa.toR pb.toR pc.toR pd.toR pe.toR pf.toR)) ∧
    parseTransform (String.mk ("translate(".toList ++ joinArgs [a, b] ++ [')'])) =
      .ok (some (translateForm pa.toR pb.toR)) ∧
    parseTransform (String.mk ("translate(".toList ++ a ++ [')'])) =
      .ok (some (translateForm pa.toR 0)) ∧
    parseTransform (String.mk ("rotate(".toList ++ a ++ [')'])) =
      .ok (some (rotateForm (radians pa.toR))) ∧
    parseTransform (String.mk ("rotate(".toList ++ a ++ ',' :: b ++ ',' :: c ++ [')'])) =
      .ok (some (translateForm pb.toR pc.toR * rotateForm (radians pa.toR) *
        translateForm (-pb.toR) (-pc.toR))) ∧
    parseTransform (String.mk ("scale(".toList ++ joinArgs [a, b] ++ [')'])) =
      .ok (some (scaleForm pa.toR pb.toR)) ∧
    parseTransform (String.mk ("scale(".toList ++ a ++ [')'])) =
      .ok (some (scaleForm pa.toR pa.toR)) :=
  ⟨matrixSix_parse a b c d e f pa pb pc pd pe pf ha hb hc hd he hf,
   translateTwo_parse a b pa pb ha hb,
   translateOne_parse a pa ha,
   rotateOne_parse a pa ha,
   rotateThree_parse a b c pa pb pc ha hb hc,
   scaleTwo_parse a b pa pb ha hb,
   scaleOne_parse a pa ha⟩

/-- Witness for C4 with arguments exercising decimal points, a leading
minus sign and a lower-case exponent:
`a = "1.5"`, `b = "-2"`, `c = "1e2"`, `d = "0"`, `e = ".5"`,
`f = "-3e-1"`. -/
theorem claim4_witness :
    parseTransform (String.mk ("matrix(".toList ++
        joinArgs ["1.5".toList, "-2".toList, "1e2".toList, "0".toList,
          ".5".toList, "-3e-1".toList] ++ [')'])) =
      .ok (some (matrixForm (PyNum.toR ⟨15, -1⟩) (PyNum.toR ⟨-2, 0⟩) (PyNum.toR ⟨1, 2⟩)
        (PyNum.toR ⟨0, 0⟩) (PyNum.toR ⟨5, -1⟩) (PyNum.toR ⟨-3, -1⟩))) ∧
    parseTransform (String.mk ("scale(".toList ++ "1.5".toList ++ [')'])) =
      .ok (some (scaleForm (PyNum.toR ⟨15, -1⟩) (PyNum.toR ⟨15, -1⟩))) := by
  have h := claim4_amended "1.5".toList "-2".toList "1e2".toList "0".toList ".5".toList
    "-3e-1".toList ⟨15, -1⟩ ⟨-2, 0⟩ ⟨1, 2⟩ ⟨0, 0⟩ ⟨5, -1⟩ ⟨-3, -1⟩
    ⟨by decide, by decide, by decide⟩ ⟨by decide, by decide, by decide⟩
    ⟨by decide, by decide, by decide⟩ ⟨by decide, by decide, by decide⟩
    ⟨by decide, by decide, by decide⟩ ⟨by decide, by decide, by decide⟩
  exact ⟨h.1, h.2.2.2.2.2.2⟩

/-- The spec's angle normalization into `(-π, π]` ("each angle difference
normalized into `(-π, π]` before summing absolute values"), stated from
the spec's words for comparison with the code's `ang_diff`. -/
noncomputable def specNormAngle (x : ℝ) : ℝ :=
  if x > Real.pi then x - 2 * Real.pi
  else if x ≤ -Real.pi then x + 2 * Real.pi
  else x

/-- The spec's segment count
`n = 1 + floor(10·d) + floor(L/100)`, with `d` the sum of absolute
normalized turning angles over (start, control1, control2, end) and `L`
the Euclidean chord length, stated from the spec's words. -/
noncomputable def specSegmentCount (p0x p0y p1x p1y p2x p2y p3x p3y : ℝ) : ℤ :=
  1 + ⌊10 * (|specNormAngle (atan2 (p2y - p1y) (p2x - p1x) - atan2 (p1y - p0y) (p1x - p0x))| +
    |specNormAngle (atan2 (p3y - p2y) (p3x - p2x) - atan2 (p2y - p1y) (p2x - p1x))|)⌋ +
  ⌊Real.sqrt ((p3x - p0x) ^ 2 + (p3y - p0y) ^ 2) / 100⌋

/-- The spec's flattening: the cubic Bernstein polynomial of the absolute
control points evaluated at `t = (k+1)/n` for `k` in `[0, n)`. -/
noncomputable def specCurvePoints (p0x p0y p1x p1y p2x p2y p3x p3y : ℝ) : List (List ℝ) :=
  (List.range (specSegmentCount p0x p0y p1x p1y p2x p2y p3x p3y).toNat).map (fun (k : ℕ) =>
    [bpoint p0x p1x p2x p3x
      (((k : ℝ) + 1) / ((specSegmentCount p0x p0y p1x p1y p2x p2y p3x p3y : ℤ) : ℝ)),
     bpoint p0y p1y p2y p3y
      (((k : ℝ) + 1) / ((specSegmentCount p0x p0y p1x p1y p2x p2y p3x p3y : ℤ) : ℝ))])

theorem pyTrunc_eq_floor {x : ℝ} (h : 0 ≤ x) : pyTrunc x = ⌊x⌋ :=
  if_pos h

/-- The code's `ang_diff` and the spec's `(-π, π]` normalization agree in
absolute value (they differ only at inputs congruent to `-π`, where one
returns `-π` and the other `π`). -/
theorem abs_angDiff_spec (a b : ℝ) : |angDiff a b| = |specNormAngle (b - a)| := by
  rw [angDiff, specNormAngle]
  by_cases hgt : b - a > Real.pi
  · have hpi : (0 : ℝ) < Real.pi := Real.pi_pos
    have h2 : ¬(b - a - 2 * Real.pi < -Real.pi) := by linarith
    simp only [hgt, if_pos, if_true, h2, if_false, if_neg]
  · simp only [hgt, if_neg, if_false]
    by_cases hlt : b - a < -Real.pi
    · have hle : b - a ≤ -Real.pi := le_of_lt hlt
      simp only [hlt, hle, if_pos, if_true]
    · simp only [hlt, if_neg, if_false]
      by_cases heq : b - a ≤ -Real.pi
      · have hx : b - a = -Real.pi := le_antisymm heq (not_lt.mp hlt)
        rw [if_pos heq, hx]
        have : -Real.pi + 2 * Real.pi = Real.pi := by ring
        rw [this, abs_neg]
      · rw [if_neg heq]

/-- The code's segment count (truncations of non-negative quantities)
equals the spec's floor formula. -/
theorem segCount_eq_spec (p0x p0y p1x p1y p2x p2y p3x p3y : ℝ) :
    1 + pyTrunc (10 * (|angDiff (atan2 (p1y - p0y) (p1x - p0x)) (atan2 (p2y - p1y) (p2x - p1x))| +
        |angDiff (atan2 (p2y - p1y) (p2x - p1x)) (atan2 (p3y - p2y) (p3x - p2x))|)) +
      pyTrunc (Real.sqrt ((p3x - p0x) * (p3x - p0x) + (p3y - p0y) * (p3y - p0y)) / 100) =
    specSegmentCount p0x p0y p1x p1y p2x p2y p3x p3y := by
  rw [pyTrunc_eq_floor (by positivity), pyTrunc_eq_floor (by positivity)]
  rw [abs_angDiff_spec, abs_angDiff_spec]
  have hsq : (p3x - p0x) * (p3x - p0x) + (p3y - p0y) * (p3y - p0y) =
      (p3x - p0x) ^ 2 + (p3y - p0y) ^ 2 := by ring
  rw [hsq]
  rfl

/-- The code's output list, with the code's segment count, equals the
spec's curve points. -/
theorem codePoints_eq_spec (p0x p0y p1x p1y p2x p2y p3x p3y : ℝ) :
    (List.range (1 + pyTrunc (10 *
        (|angDiff (atan2 (p1y - p0y) (p1x - p0x)) (atan2 (p2y - p1y) (p2x - p1x))| +
         |angDiff (atan2 (p2y - p1y) (p2x - p1x)) (atan2 (p3y - p2y) (p3x - p2x))|)) +
      pyTrunc (Real.sqrt ((p3x - p0x) * (p3x - p0x) + (p3y - p0y) * (p3y - p0y)) / 100)).toNat).map
      (fun (i : ℕ) =>
        let t : ℝ := ((i : ℝ) + 1) / ((1 + pyTrunc (10 *
          (|angDiff (atan2 (p1y - p0y) (p1x - p0x)) (atan2 (p2y - p1y) (p2x - p1x))| +
           |angDiff (atan2 (p2y - p1y) (p2x - p1x)) (atan2 (p3y - p2y) (p3x - p2x))|)) +
          pyTrunc (Real.sqrt ((p3x - p0x) * (p3x - p0x) + (p3y - p0y) * (p3y - p0y)) / 100) : ℤ) : ℝ)
        [bpoint p0x p1x p2x p3x t, bpoint p0y p1y p2y p3y t]) =
    specCurvePoints p0x p0y p1x p1y p2x p2y p3x p3y := by
  rw [specCurvePoints]
  rw [segCount_eq_spec]

theorem specSegmentCount_pos (p0x p0y p1x p1y p2x p2y p3x p3y : ℝ) :
    1 ≤ specSegmentCount p0x p0y p1x p1y p2x p2y p3x p3y := by
  rw [specSegmentCount]
  have h1 : (0 : ℤ) ≤ ⌊10 * (|specNormAngle (atan2 (p2y - p1y) (p2x - p1x) -
      atan2 (p1y - p0y) (p1x - p0x))| + |specNormAngle (atan2 (p3y - p2y) (p3x - p2x) -
      atan2 (p2y - p1y) (p2x - p1x))|)⌋ := Int.floor_nonneg.mpr (by positivity)
  have h2 : (0 : ℤ) ≤ ⌊Real.sqrt ((p3x - p0x) ^ 2 + (p3y - p0y) ^ 2) / 100⌋ :=
    Int.floor_nonneg.mpr (by positivity)
  linarith

theorem range_map_getLast {α : Type} (f : ℕ → α) (m : ℕ) (hm : 0 < m) :
    ((List.range m).map f).getLast? = some (f (m - 1)) := by
  obtain ⟨k, rfl⟩ := Nat.exists_eq_succ_of_ne_zero (Nat.pos_iff_ne_zero.mp hm)
  rw [List.range_succ, List.map_append]
  simp

theorem specCurvePoints_getLast (p0x p0y p1x p1y p2x p2y p3x p3y : ℝ) :
    (specCurvePoints p0x p0y p1x p1y p2x p2y p3x p3y).getLast? = some [p3x, p3y] := by
  rw [specCurvePoints]
  have hpos := specSegmentCount_pos p0x p0y p1x p1y p2x p2y p3x p3y
  set n := specSegmentCount p0x p0y p1x p1y p2x p2y p3x p3y with hn
  have hm : 0 < n.toNat := by omega
  rw [range_map_getLast _ _ hm]
  have hzero : (0 : ℝ) < (n : ℝ) := by exact_mod_cast hpos.trans_lt' (by norm_num)
  have hne : (n : ℝ) ≠ 0 := ne_of_gt hzero
  have hcast : ((n.toNat - 1 : ℕ) : ℝ) + 1 = (n : ℝ) := by
    have h2 : (1 : ℕ) ≤ n.toNat := by omega
    have h4 : ((n.toNat - 1 : ℕ) : ℝ) = (n.toNat : ℝ) - 1 := by
      push_cast [Nat.cast_sub h2]
      ring
    have h3 : ((n.toNat : ℕ) : ℝ) = (n : ℝ) := by
      exact_mod_cast congrArg (fun z : ℤ => (z : ℝ)) (Int.toNat_of_nonneg (by omega))
    rw [h4, h3]
    ring
  have ht : ((↑(n.toNat - 1) : ℝ) + 1) / (n : ℝ) = 1 := by
    rw [hcast, div_self hne]
  simp only [ht]
  congr 1
  rw [bpoint, bpoint]
  norm_num

/-- Claim C1: for every cursor position and six-value cubic segment group,
absolute or relative, `poly_points_bezier` returns exactly the spec's
point list — the cubic Bernstein polynomial of the absolute control
points evaluated at `t = (k+1)/n` for `k` in `[0, n)` (so the point at
`t = 0`, the starting point, is excluded) — where
`n = 1 + ⌊10·d⌋ + ⌊L/100⌋` with `d` the sum of absolute `(-π, π]`-
normalized turning angles and `L` the Euclidean chord length; the count
is `n`, the sequence is non-empty (`1 ≤ n`), and its last element is the
absolute endpoint. -/
theorem claim1_curve_flattener (cx cy x1 y1 x2 y2 x3 y3 : ℝ) :
    polyPointsBezier [cx, cy] [x1, y1, x2, y2, x3, y3] true =
      .ok (specCurvePoints cx cy x1 y1 x2 y2 x3 y3) ∧
    polyPointsBezier [cx, cy] [x1, y1, x2, y2, x3, y3] false =
      .ok (specCurvePoints cx cy (cx + x1) (cy + y1) (cx + x2) (cy + y2) (cx + x3) (cy + y3)) ∧
    (specCurvePoints cx cy x1 y1 x2 y2 x3 y3).length =
      (specSegmentCount cx cy x1 y1 x2 y2 x3 y3).toNat ∧
    1 ≤ specSegmentCount cx cy x1 y1 x2 y2 x3 y3 ∧
    (specCurvePoints cx cy x1 y1 x2 y2 x3 y3).getLast? = some [x3, y3] := by
  refine ⟨?_, ?_, ?_, specSegmentCount_pos cx cy x1 y1 x2 y2 x3 y3,
    specCurvePoints_getLast cx cy x1 y1 x2 y2 x3 y3⟩
  · exact Eq.trans (by rfl) (congrArg Except.ok (codePoints_eq_spec cx cy x1 y1 x2 y2 x3 y3))
  · exact Eq.trans (by rfl) (congrArg Except.ok
      (codePoints_eq_spec cx cy (cx + x1) (cy + y1) (cx + x2) (cy + y2) (cx + x3) (cy + y3)))
  · simp [specCurvePoints]

theorem scanStep_none (cursor k : ℝ × ℝ) (lo1 : Option (ℝ × ℝ)) :
    scanStep cursor (lo1, none) k = (some k, some (dist2d cursor k)) := rfl

theorem scanStep_some (cursor k : ℝ × ℝ) (lo1 : Option (ℝ × ℝ)) (ld : ℝ) :
    scanStep cursor (lo1, some ld) k =
      if dist2d cursor k < ld then (some k, some (dist2d cursor k)) else (lo1, some ld) := rfl

theorem scanFold_aux (cursor : ℝ × ℝ) :
    ∀ (keys : List (ℝ × ℝ)) (k0 k : ℝ × ℝ),
      (keys.foldl (scanStep cursor) (some k0, some (dist2d cursor k0))).1 = some k →
      (k = k0 ∧ ∀ q ∈ keys, dist2d cursor k0 ≤ dist2d cursor q) ∨
      (dist2d cursor k < dist2d cursor k0 ∧ ∃ pre post, keys = pre ++ k :: post ∧
        (∀ q ∈ pre, dist2d cursor k < dist2d cursor q) ∧
        (∀ q ∈ keys, dist2d cursor k ≤ dist2d cursor q)) := by
  intro keys
  induction keys with
  | nil =>
    intro k0 k hk
    left
    refine ⟨(Option.some.inj hk).symm, ?_⟩
    intro q hq
    exact absurd hq (List.not_mem_nil q)
  | cons q rest ih =>
    intro k0 k hk
    rw [List.foldl_cons, scanStep_some] at hk
    by_cases hq : dist2d cursor q < dist2d cursor k0
    · rw [if_pos hq] at hk
      rcases ih q k hk with ⟨rfl, hall⟩ | ⟨hlt, pre, post, heq, hpre, hall⟩
      · right
        refine ⟨hq, [], rest, rfl, ?_, ?_⟩
        · intro r hr
          exact absurd hr (List.not_mem_nil r)
        · intro r hr
          rcases List.mem_cons.mp hr with rfl | hr
          · exact le_refl _
          · exact hall r hr
      · right
        refine ⟨hlt.trans hq, q :: pre, post, by rw [heq]; rfl, ?_, ?_⟩
        · intro r hr
          rcases List.mem_cons.mp hr with rfl | hr
          · exact hlt
          · exact hpre r hr
        · intro r hr
          rcases List.mem_cons.mp hr with rfl | hr
          · exact le_of_lt hlt
          · exact hall r hr
    · rw [if_neg hq] at hk
      have hq' : dist2d cursor k0 ≤ dist2d cursor q := not_lt.mp hq
      rcases ih k0 k hk with ⟨rfl, hall⟩ | ⟨hlt, pre, post, heq, hpre, hall⟩
      · left
        refine ⟨rfl, ?_⟩
        intro r hr
        rcases List.mem_cons.mp hr with rfl | hr
        · exact hq'
        · exact hall r hr
      · right
        refine ⟨hlt, q :: pre, post, by rw [heq]; rfl, ?_, ?_⟩
        · intro r hr
          rcases List.mem_cons.mp hr with rfl | hr
          · exact hlt.trans_le hq'
          · exact hpre r hr
        · intro r hr
          rcases List.mem_cons.mp hr with rfl | hr
          · exact le_of_lt (hlt.trans_le hq')
          · exact hall r hr

theorem scanLo_first_argmin (cursor : ℝ × ℝ) (keys : List (ℝ × ℝ)) (k : ℝ × ℝ)
    (hk : (scanLo cursor keys).1 = some k) :
    ∃ pre post, keys = pre ++ k :: post ∧
      (∀ q ∈ pre, dist2d cursor k < dist2d cursor q) ∧
      (∀ q ∈ keys, dist2d cursor k ≤ dist2d cursor q) := by
  cases keys with
  | nil => exact absurd hk (by simp [scanLo])
  | cons k0 rest =>
    rw [scanLo, List.foldl_cons, scanStep_none] at hk
    rcases scanFold_aux cursor rest k0 k hk with ⟨rfl, hall⟩ | ⟨hlt, pre, post, heq, hpre, hall⟩
    · refine ⟨[], rest, rfl, ?_, ?_⟩
      · intro r hr
        exact absurd hr (List.not_mem_nil r)
      · intro r hr
        rcases List.mem_cons.mp hr with rfl | hr
        · exact le_refl _
        · exact hall r hr
    · refine ⟨k0 :: pre, post, by rw [heq]; rfl, ?_, ?_⟩
      · intro r hr
        rcases List.mem_cons.mp hr with rfl | hr
        · exact hlt
        · exact hpre r hr
      · intro r hr
        rcases List.mem_cons.mp hr with rfl | hr
        · exact le_of_lt hlt
        · exact hall r hr

theorem dist2d_lt_iff (a b c d : ℝ × ℝ) :
    dist2d a b < dist2d c d ↔
      (b.1 - a.1) ^ 2 + (b.2 - a.2) ^ 2 < (d.1 - c.1) ^ 2 + (d.2 - c.2) ^ 2 := by
  rw [dist2d, dist2d]
  exact Real.sqrt_lt_sqrt_iff (by positivity)

/-- Claim C10: `order_paths` is deterministic (a pure function of its
input), and the scan over the insertion-ordered dict keys selects the
first key attaining the minimum distance: every key registered before the
selected one is strictly farther from the cursor, because only a strict
`dist < lo_dist` replaces the running minimum — so on an exact tie the
earliest-registered endpoint wins. -/
theorem claim10_deterministic_tiebreak :
    (∀ p1 p2 : List (List (ℝ × ℝ)), p1 = p2 → orderPaths p1 = orderPaths p2) ∧
    ∀ (cursor : ℝ × ℝ) (keys : List (ℝ × ℝ)) (k : ℝ × ℝ),
      (scanLo cursor keys).1 = some k →
      ∃ pre post, keys = pre ++ k :: post ∧
        (∀ q ∈ pre, dist2d cursor k < dist2d cursor q) ∧
        (∀ q ∈ keys, dist2d cursor k ≤ dist2d cursor q) :=
  ⟨fun _ _ h => congrArg _ h, scanLo_first_argmin⟩

/-- Witness for C10 on an exact tie: from cursor `(0,0)` the keys
`(1,0)` and `(0,1)` are equidistant and the scan selects the
earlier-registered `(1,0)`. -/
theorem claim10_witness :
    ∃ pre post, [((1 : ℝ), (0 : ℝ)), (0, 1)] = pre ++ ((1 : ℝ), (0 : ℝ)) :: post ∧
      (∀ q ∈ pre, dist2d (0, 0) (1, 0) < dist2d (0, 0) q) ∧
      (∀ q ∈ [((1 : ℝ), (0 : ℝ)), (0, 1)], dist2d (0, 0) (1, 0) ≤ dist2d (0, 0) q) := by
  apply claim10_deterministic_tiebreak.2 (0, 0) [((1 : ℝ), (0 : ℝ)), (0, 1)] (1, 0)
  rw [scanLo, List.foldl_cons, scanStep_none, List.foldl_cons, scanStep_some,
    if_neg (by rw [dist2d_lt_iff]; norm_num)]
  rfl

/-- Claim C3: on the polygons `[(0,0),(1,0)]` and `[(5,5),(6,5)]` with
starting cursor `(0,0)`, `order_paths` — which repeatedly selects the
remaining registered endpoint nearest the cursor, emits that polygon
reversed exactly when the matched endpoint was registered as its last
vertex, removes both of the polygon's registrations and advances the
cursor to the emitted polygon's final vertex — emits the two polygons in
input order, neither reversed, ending with cursor `(6,5)`. -/
theorem claim3_order_paths_example :
    orderPaths [[((0 : ℝ), (0 : ℝ)), (1, 0)], [(5, 5), (6, 5)]] =
      .ok ([[((0 : ℝ), (0 : ℝ)), (1, 0)], [(5, 5), (6, 5)]], (6, 5)) := by
  norm_num [orderPaths, buildIndex, List.enum, List.enumFrom, ixAppend, ixFind, ixSet,
    ixDel, countIx, orderLoop, scanLo, scanStep, addItem, dist2d_lt_iff, Prod.ext_iff,
    pureBind, okBind, errBind, List.getLast]
  exact List.cons_ne_nil _ _
